import Mathlib

/-!
# Verification of the `divide` team-partition service

A shallow embedding of the room service of the `divide` repository
(`server/src/modules/room/room.service.ts` together with its entities and the
Pusher publisher), with proofs about the division algorithm
(`divideWithRules`, `solveWithCSP`, `greedyWithTwoOpt`, `calculateScore`)
and the room-service state machine (`joinRoom`, `leaveRoom`, `closeRoom`,
`divideTeams`, `redivideTeams`, `setMemberLabels`, `setLabelRules`,
`getMyJoinedRoom`).

Conventions of the embedding:
* TypeScript arrays become `List`s, kept in the order the code pushes them.
* `Math.random()` draws are threaded in as explicit `Bool` parameters, one per
  random decision of the source.
* TypeORM repository rows become structures; the loaded `user` relation is
  flattened into the member row (`nickname`, `avatarUrl`).
* Each service method returns its outcome (`Except`), the post state, and the
  ordered list of repository writes and publisher calls it performed
  (`Action`); thrown exceptions leave earlier writes committed, as `await`ed
  TypeORM calls do.
-/

namespace Divide

/-- `Team` enum of `room-member.entity.ts`: `none`, `team_a`, `team_b`. -/
inductive Team where
  | noTeam
  | teamA
  | teamB
deriving DecidableEq, Repr

/-- `RoomStatus` enum of `room.entity.ts`: `waiting`, `divided`, `closed`. -/
inductive RoomStatus where
  | waiting
  | divided
  | closed
deriving DecidableEq, Repr

/-- A `RoomMember` row with its loaded `user` relation flattened in
(`m.user.nickname`, `m.user.avatarUrl`). -/
structure RoomMember where
  id : Nat
  roomId : Nat
  userId : String
  nickname : String
  avatarUrl : String
  team : Team
  labels : List String
deriving DecidableEq, Repr

/-- A pair of teams, the working value of the division algorithm. -/
abbrev Split := List RoomMember × List RoomMember

/-- `m.labels?.includes(label)`. -/
def hasLabel (m : RoomMember) (l : String) : Bool := m.labels.contains l

/-- `team.filter(m => m.labels?.includes(label)).length`. -/
def countLabel (team : List RoomMember) (l : String) : Nat :=
  (team.filter (fun m => hasLabel m l)).length

/-- `calculateScore`: 5 per unit of per-even-label count difference plus 3 per
unit of team-size difference. -/
def calculateScore (teamA teamB : List RoomMember) (evenLabels : List String) : Nat :=
  (evenLabels.map (fun l => 5 * Nat.dist (countLabel teamA l) (countLabel teamB l))).sum
    + 3 * Nat.dist teamA.length teamB.length

/-- `team.some(m => m.labels?.includes(label))`. -/
def teamHasCarrier (l : String) (team : List RoomMember) : Bool :=
  team.any (fun m => hasLabel m l)

/-- The `same_team` hard-constraint check of `solveWithCSP` / `greedyWithTwoOpt`:
carriers of the label present in both teams. -/
def violatesSameTeam (sameTeamLabel : Option String) (teamA teamB : List RoomMember) : Bool :=
  match sameTeamLabel with
  | none => false
  | some l => teamHasCarrier l teamA && teamHasCarrier l teamB

/-- First component of the optional protected pre-assignment. -/
def protFst (prot : Option Split) : List RoomMember :=
  match prot with
  | some p => p.1
  | none => []

/-- Second component of the optional protected pre-assignment. -/
def protSnd (prot : Option Split) : List RoomMember :=
  match prot with
  | some p => p.2
  | none => []

/-- The assignment a bitmask denotes in `solveWithCSP`: the protected members
first, then member `i` joins team A iff bit `i` of the mask is set. -/
def maskAssign (members : List RoomMember) (prot : Option Split) (mask : Nat) : Split :=
  (protFst prot ++ (members.enum.filter (fun p => mask.testBit p.1)).map Prod.snd,
   protSnd prot ++ (members.enum.filter (fun p => !(mask.testBit p.1))).map Prod.snd)

/-- One iteration of the `solveWithCSP` loop: skip the mask if it violates the
`same_team` constraint, otherwise keep it when its score is strictly smaller
than the best so far (`score < bestScore`). -/
def cspStep (members : List RoomMember) (evenLabels : List String)
    (sameTeamLabel : Option String) (prot : Option Split)
    (best : Option (Nat × Split)) (mask : Nat) : Option (Nat × Split) :=
  let c := maskAssign members prot mask
  if violatesSameTeam sameTeamLabel c.1 c.2 then best
  else
    let s := calculateScore c.1 c.2 evenLabels
    match best with
    | none => some (s, c)
    | some (bs, b) => if s < bs then some (s, c) else some (bs, b)

/-- `solveWithCSP`: early return of the protected assignment when no member is
left to place, otherwise enumerate all `2^n` masks. -/
def solveWithCSP (members : List RoomMember) (evenLabels : List String)
    (sameTeamLabel : Option String) (prot : Option Split) : Split :=
  if members.length = 0 ∧ prot.isSome then (protFst prot, protSnd prot)
  else
    match (List.range (2 ^ members.length)).foldl
        (cspStep members evenLabels sameTeamLabel prot) none with
    | some (_, r) => r
    | none => ([], [])

/-- Count of a member's labels that carry the `even` rule
(`(a.labels || []).filter(l => evenLabels.includes(l)).length`). -/
def evenCount (evenLabels : List String) (m : RoomMember) : Nat :=
  (m.labels.filter (fun l => evenLabels.contains l)).length

/-- `sameTeamTarget` of `greedyWithTwoOpt`, as the Boolean "target is team A":
the side already holding a carrier, else the random side. -/
def sameTeamTargetA (sameTeamLabel : Option String) (teamA teamB : List RoomMember)
    (rndA : Bool) : Bool :=
  match sameTeamLabel with
  | none => rndA
  | some l =>
    if teamHasCarrier l teamA then true
    else if teamHasCarrier l teamB then false
    else rndA

/-- State of the member-placement loop of `greedyWithTwoOpt`. -/
structure GreedyInit where
  teamA : List RoomMember
  teamB : List RoomMember
  protIds : List Nat
  remaining : List RoomMember
deriving Repr

/-- One step of the placement loop of `greedyWithTwoOpt`: skip protected ids,
send `same_team` carriers to the target side (protecting them), and queue
everyone else. -/
def placeStep (sameTeamLabel : Option String) (targetA : Bool)
    (st : GreedyInit) (m : RoomMember) : GreedyInit :=
  if st.protIds.contains m.id then st
  else
    match sameTeamLabel with
    | some l =>
      if hasLabel m l then
        if targetA then
          { st with teamA := st.teamA ++ [m], protIds := st.protIds ++ [m.id] }
        else
          { st with teamB := st.teamB ++ [m], protIds := st.protIds ++ [m.id] }
      else { st with remaining := st.remaining ++ [m] }
    | none => { st with remaining := st.remaining ++ [m] }

/-- One step of the greedy assignment: place the member on the side whose
resulting score is not larger (ties go to team A). -/
def greedyStep (evenLabels : List String) (t : Split) (m : RoomMember) : Split :=
  if calculateScore (t.1 ++ [m]) t.2 evenLabels ≤ calculateScore t.1 (t.2 ++ [m]) evenLabels
  then (t.1 ++ [m], t.2)
  else (t.1, t.2 ++ [m])

/-- Candidate 2-opt swap of `teamA[i]` with `teamB[j]`: rejected when `teamB[j]`
is protected, when the swapped teams violate `same_team`, or when the score
does not strictly decrease. -/
def trySwapAt (protIds : List Nat) (sameTeamLabel : Option String)
    (evenLabels : List String) (teamA teamB : List RoomMember) (cur : Nat)
    (i j : Nat) : Option Split :=
  match teamA.get? i, teamB.get? j with
  | some a, some b =>
    if protIds.contains b.id then none
    else if violatesSameTeam sameTeamLabel (teamA.set i b) (teamB.set j a) then none
    else if calculateScore (teamA.set i b) (teamB.set j a) evenLabels < cur then
      some (teamA.set i b, teamB.set j a)
    else none
  | _, _ => none

/-- One 2-opt sweep: scan all (i, j) pairs in order and commit the first
strictly improving, constraint-respecting swap. -/
def findSwap (protIds : List Nat) (sameTeamLabel : Option String)
    (evenLabels : List String) (teamA teamB : List RoomMember) (cur : Nat) :
    Option Split :=
  (List.range teamA.length).findSome? fun i =>
    match teamA.get? i with
    | some a =>
      if protIds.contains a.id then none
      else (List.range teamB.length).findSome? fun j =>
        trySwapAt protIds sameTeamLabel evenLabels teamA teamB cur i j
    | none => none

/-- The `while (improved && iterations < maxIterations)` loop of
`greedyWithTwoOpt`, with the sweep budget as fuel. -/
def twoOptLoop (protIds : List Nat) (sameTeamLabel : Option String)
    (evenLabels : List String) : Nat → Split → Split
  | 0, t => t
  | Nat.succ fuel, t =>
    match findSwap protIds sameTeamLabel evenLabels t.1 t.2
        (calculateScore t.1 t.2 evenLabels) with
    | some t' => twoOptLoop protIds sameTeamLabel evenLabels fuel t'
    | none => t

/-- Step 1 of `greedyWithTwoOpt`: initialise the teams with the protected
members and run the member-placement loop. -/
def greedyPlace (members : List RoomMember) (sameTeamLabel : Option String)
    (prot : Option Split) (rndTargetA : Bool) : GreedyInit :=
  members.foldl
    (placeStep sameTeamLabel
      (sameTeamTargetA sameTeamLabel (protFst prot) (protSnd prot) rndTargetA))
    ⟨protFst prot, protSnd prot, (protFst prot ++ protSnd prot).map (·.id), []⟩

/-- `greedyWithTwoOpt` with its default `maxIterations = 100`: placement, sort
by descending even-label count, greedy assignment, then 2-opt. -/
def greedyWithTwoOpt (members : List RoomMember) (evenLabels : List String)
    (sameTeamLabel : Option String) (prot : Option Split) (rndTargetA : Bool) :
    Split :=
  twoOptLoop (greedyPlace members sameTeamLabel prot rndTargetA).protIds
    sameTeamLabel evenLabels 100
    ((((greedyPlace members sameTeamLabel prot rndTargetA).remaining).mergeSort
        (fun a b => decide (evenCount evenLabels b ≤ evenCount evenLabels a))).foldl
      (greedyStep evenLabels)
      ((greedyPlace members sameTeamLabel prot rndTargetA).teamA,
       (greedyPlace members sameTeamLabel prot rndTargetA).teamB))

/-- Labels of the rules map whose rule is `even`, in map order. -/
def evenLabelsOf (labelRules : List (String × String)) : List String :=
  (labelRules.filter (fun p => decide (p.2 = "even"))).map Prod.fst

/-- The first label of the rules map whose rule is `same_team`, if any. -/
def sameTeamLabelOf (labelRules : List (String × String)) : Option String :=
  (labelRules.find? (fun p => decide (p.2 = "same_team"))).map Prod.fst

/-- The members left after the hidden pairing rule removed the first member
nicknamed 葳蕤 and the first nicknamed 兔子 (removal is by array position,
matching the reference comparison `member !== weiRuiMember`). -/
def remainingAfterPair (members : List RoomMember) : List RoomMember :=
  (members.enum.filter (fun p =>
    decide (p.1 ≠ members.findIdx (fun m => decide (m.nickname = "葳蕤"))) &&
    decide (p.1 ≠ members.findIdx (fun m => decide (m.nickname = "兔子"))))).map Prod.snd

/-- Algorithm selection of `divideWithRules`: exact solver for at most 12
swappable members, greedy + 2-opt beyond. -/
def divideCore (remaining : List RoomMember) (evenLabels : List String)
    (sameTeamLabel : Option String) (prot : Option Split) (rndTargetA : Bool) :
    Split :=
  if remaining.length ≤ 12 then solveWithCSP remaining evenLabels sameTeamLabel prot
  else greedyWithTwoOpt remaining evenLabels sameTeamLabel prot rndTargetA

/-- `divideWithRules`.  The three Booleans are the outcomes of the three
`Math.random()` draws: `rndPairSame` for `Math.random() < 0.9` of the hidden
pairing rule, `rndPairToA` for its side choice, and `rndTargetA` for the
`same_team` side choice of the greedy fallback. -/
def divideWithRules (members : List RoomMember) (labelRules : List (String × String))
    (rndPairSame rndPairToA rndTargetA : Bool) : Split :=
  if members.length = 0 then ([], [])
  else if members.length = 1 then (members.take 1, [])
  else
    let evenLabels := evenLabelsOf labelRules
    let sameTeamLabel := sameTeamLabelOf labelRules
    match members.find? (fun m => decide (m.nickname = "葳蕤")),
          members.find? (fun m => decide (m.nickname = "兔子")) with
    | some w, some t =>
      if rndPairSame then
        divideCore (remainingAfterPair members) evenLabels sameTeamLabel
          (some (if rndPairToA then ([w, t], []) else ([], [w, t]))) rndTargetA
      else divideCore members evenLabels sameTeamLabel none rndTargetA
    | some _, none => divideCore members evenLabels sameTeamLabel none rndTargetA
    | none, _ => divideCore members evenLabels sameTeamLabel none rndTargetA

/-! ## The exact solver: argmin over all bitmasks (claim C1) -/

/-- A mask satisfies the `same_team` hard constraint. -/
def feasibleMask (members : List RoomMember) (sameTeamLabel : Option String)
    (prot : Option Split) (mask : Nat) : Prop :=
  violatesSameTeam sameTeamLabel (maskAssign members prot mask).1
    (maskAssign members prot mask).2 = false

/-- The imbalance score of the assignment a mask denotes. -/
def maskScore (members : List RoomMember) (evenLabels : List String)
    (prot : Option Split) (mask : Nat) : Nat :=
  calculateScore (maskAssign members prot mask).1 (maskAssign members prot mask).2
    evenLabels

instance (members : List RoomMember) (stl : Option String) (prot : Option Split)
    (mask : Nat) : Decidable (feasibleMask members stl prot mask) := by
  unfold feasibleMask; infer_instance

/-- Invariant of the `solveWithCSP` loop after the masks `< k` were processed:
the accumulator holds the assignment of the least mask attaining the least
score among the feasible masks seen so far. -/
def cspInv (members : List RoomMember) (evenLabels : List String)
    (stl : Option String) (prot : Option Split) (k : Nat) :
    Option (Nat × Split) → Prop
  | none => ∀ m, m < k → ¬ feasibleMask members stl prot m
  | some sr =>
    ∃ m, m < k ∧ feasibleMask members stl prot m ∧
      sr.2 = maskAssign members prot m ∧
      sr.1 = maskScore members evenLabels prot m ∧
      (∀ m', m' < k → feasibleMask members stl prot m' →
        sr.1 ≤ maskScore members evenLabels prot m') ∧
      (∀ m', m' < k → feasibleMask members stl prot m' →
        maskScore members evenLabels prot m' = sr.1 → m ≤ m')

lemma cspFold_inv (members : List RoomMember) (evenLabels : List String)
    (stl : Option String) (prot : Option Split) (k : Nat) :
    cspInv members evenLabels stl prot k
      ((List.range k).foldl (cspStep members evenLabels stl prot) none) := by
  induction k with
  | zero => intro m hm; omega
  | succ k ih =>
    rw [List.range_succ, List.foldl_append, List.foldl_cons, List.foldl_nil]
    rcases hacc : (List.range k).foldl (cspStep members evenLabels stl prot) none with
      _ | ⟨s, r⟩
    · rw [hacc] at ih
      by_cases hv : feasibleMask members stl prot k
      · have hstep : cspStep members evenLabels stl prot none k =
            some (maskScore members evenLabels prot k, maskAssign members prot k) := by
          unfold cspStep feasibleMask at *
          simp [hv, maskScore]
        rw [hstep]
        refine ⟨k, Nat.lt_succ_self k, hv, rfl, rfl, ?_, ?_⟩
        · intro m' hm' hf'
          rcases Nat.lt_succ_iff_lt_or_eq.mp hm' with h | h
          · exact absurd hf' (ih m' h)
          · subst h; exact le_refl _
        · intro m' hm' hf' _
          rcases Nat.lt_succ_iff_lt_or_eq.mp hm' with h | h
          · exact absurd hf' (ih m' h)
          · omega
      · have hstep : cspStep members evenLabels stl prot none k = none := by
          unfold cspStep feasibleMask at *
          simp only [Bool.not_eq_false] at hv
          simp [hv]
        rw [hstep]
        intro m hm
        rcases Nat.lt_succ_iff_lt_or_eq.mp hm with h | h
        · exact ih m h
        · subst h; exact hv
    · rw [hacc] at ih
      obtain ⟨m, hmk, hmf, hr, hs, hmin, htie⟩ := ih
      by_cases hv : feasibleMask members stl prot k
      · by_cases hlt : maskScore members evenLabels prot k < s
        · have hstep : cspStep members evenLabels stl prot (some (s, r)) k =
              some (maskScore members evenLabels prot k, maskAssign members prot k) := by
            unfold cspStep feasibleMask at *
            unfold maskScore at hlt ⊢
            simp [hv, hlt]
          rw [hstep]
          refine ⟨k, Nat.lt_succ_self k, hv, rfl, rfl, ?_, ?_⟩
          · intro m' hm' hf'
            rcases Nat.lt_succ_iff_lt_or_eq.mp hm' with h | h
            · exact le_trans (le_of_lt hlt) (hmin m' h hf')
            · subst h; exact le_refl _
          · intro m' hm' hf' heq
            rcases Nat.lt_succ_iff_lt_or_eq.mp hm' with h | h
            · have := hmin m' h hf'
              omega
            · omega
        · have hstep : cspStep members evenLabels stl prot (some (s, r)) k =
              some (s, r) := by
            unfold cspStep feasibleMask at *
            unfold maskScore at hlt
            simp [hv, hlt]
          rw [hstep]
          refine ⟨m, Nat.lt_succ_of_lt hmk, hmf, hr, hs, ?_, ?_⟩
          · intro m' hm' hf'
            rcases Nat.lt_succ_iff_lt_or_eq.mp hm' with h | h
            · exact hmin m' h hf'
            · subst h; omega
          · intro m' hm' hf' heq
            rcases Nat.lt_succ_iff_lt_or_eq.mp hm' with h | h
            · exact htie m' h hf' heq
            · omega
      · have hstep : cspStep members evenLabels stl prot (some (s, r)) k =
            some (s, r) := by
          unfold cspStep feasibleMask at *
          simp only [Bool.not_eq_false] at hv
          simp [hv]
        rw [hstep]
        refine ⟨m, Nat.lt_succ_of_lt hmk, hmf, hr, hs, ?_, ?_⟩
        · intro m' hm' hf'
          rcases Nat.lt_succ_iff_lt_or_eq.mp hm' with h | h
          · exact hmin m' h hf'
          · subst h; exact absurd hf' hv
        · intro m' hm' hf' heq
          rcases Nat.lt_succ_iff_lt_or_eq.mp hm' with h | h
          · exact htie m' h hf' heq
          · subst h; exact absurd hf' hv

lemma fst_lt_of_mem_enum {α : Type} {l : List α} {p : Nat × α}
    (hp : p ∈ l.enum) : p.1 < l.length := by
  have h := List.mem_enum_iff_getElem?.mp hp
  exact (List.getElem?_eq_some.mp h).1

lemma maskAssign_allOnes (members : List RoomMember) (prot : Option Split) :
    maskAssign members prot (2 ^ members.length - 1) =
      (protFst prot ++ members, protSnd prot) := by
  unfold maskAssign
  have h1 : members.enum.filter
      (fun p => (2 ^ members.length - 1).testBit p.1) = members.enum := by
    rw [List.filter_eq_self]
    intro a ha
    have : a.1 < members.length := fst_lt_of_mem_enum ha
    simp [Nat.testBit_two_pow_sub_one, this]
  have h2 : members.enum.filter
      (fun p => !((2 ^ members.length - 1).testBit p.1)) = [] := by
    rw [List.filter_eq_nil_iff]
    intro a ha
    have : a.1 < members.length := fst_lt_of_mem_enum ha
    simp [Nat.testBit_two_pow_sub_one, this]
  rw [h1, h2]
  simp [List.enum_map_snd]

lemma maskAssign_zero (members : List RoomMember) (prot : Option Split) :
    maskAssign members prot 0 = (protFst prot, protSnd prot ++ members) := by
  unfold maskAssign
  simp [Nat.zero_testBit, List.enum_map_snd]

/-- If the protected pre-assignment itself satisfies the hard constraint, some
mask is feasible (all remaining members to one team). -/
lemma exists_feasibleMask (members : List RoomMember) (stl : Option String)
    (prot : Option Split)
    (hprot : violatesSameTeam stl (protFst prot) (protSnd prot) = false) :
    feasibleMask members stl prot (2 ^ members.length - 1) ∨
      feasibleMask members stl prot 0 := by
  rcases stl with _ | l
  · left; simp [feasibleMask, violatesSameTeam]
  · by_contra hcon
    push_neg at hcon
    obtain ⟨h1, h0⟩ := hcon
    rw [feasibleMask, maskAssign_allOnes] at h1
    rw [feasibleMask, maskAssign_zero] at h0
    simp only [violatesSameTeam, Bool.not_eq_false, Bool.and_eq_true] at h1 h0
    simp only [violatesSameTeam] at hprot
    rw [h0.1, h1.2] at hprot
    simp at hprot

/-- Characterisation of `solveWithCSP`: its result is the assignment of the
least feasible mask of least score, provided the pre-assignment respects the
hard constraint. -/
lemma solveWithCSP_spec (members : List RoomMember) (evenLabels : List String)
    (stl : Option String) (prot : Option Split)
    (hprot : violatesSameTeam stl (protFst prot) (protSnd prot) = false) :
    ∃ mstar, mstar < 2 ^ members.length ∧
      feasibleMask members stl prot mstar ∧
      solveWithCSP members evenLabels stl prot = maskAssign members prot mstar ∧
      (∀ m, m < 2 ^ members.length → feasibleMask members stl prot m →
        maskScore members evenLabels prot mstar ≤ maskScore members evenLabels prot m) ∧
      (∀ m, m < 2 ^ members.length → feasibleMask members stl prot m →
        maskScore members evenLabels prot m = maskScore members evenLabels prot mstar →
        mstar ≤ m) := by
  unfold solveWithCSP
  by_cases hguard : members.length = 0 ∧ prot.isSome
  · refine ⟨0, ?_, ?_, ?_, ?_, ?_⟩
    · positivity
    · rw [feasibleMask, maskAssign_zero]
      have : members = [] := List.length_eq_zero.mp hguard.1
      subst this
      simpa using hprot
    · have : members = [] := List.length_eq_zero.mp hguard.1
      subst this
      rw [maskAssign_zero]
      simp [hguard]
    · intro m hm _
      have hmem : members = [] := List.length_eq_zero.mp hguard.1
      subst hmem
      simp only [List.length_nil, pow_zero] at hm
      have hm0 : m = 0 := by omega
      subst hm0
      exact le_refl _
    · intro m hm _ _
      omega
  · have hinv := cspFold_inv members evenLabels stl prot (2 ^ members.length)
    have hfeas : ∃ m0, m0 < 2 ^ members.length ∧ feasibleMask members stl prot m0 := by
      rcases exists_feasibleMask members stl prot hprot with h | h
      · refine ⟨2 ^ members.length - 1, ?_, h⟩
        have hpos : 0 < 2 ^ members.length := by positivity
        omega
      · exact ⟨0, by positivity, h⟩
    rcases hacc : (List.range (2 ^ members.length)).foldl
        (cspStep members evenLabels stl prot) none with _ | ⟨s, r⟩
    · rw [hacc] at hinv
      obtain ⟨m0, hm0, hf0⟩ := hfeas
      exact absurd hf0 (hinv m0 hm0)
    · rw [hacc] at hinv
      obtain ⟨m, hmk, hmf, hr, hs, hmin, htie⟩ := hinv
      refine ⟨m, hmk, hmf, ?_, ?_, ?_⟩
      · simp only [if_neg hguard, hacc]
        exact hr
      · intro m' hm' hf'
        rw [← hs]
        exact hmin m' hm' hf'
      · intro m' hm' hf' heq
        exact htie m' hm' hf' (by rw [heq, hs])

/-- C1.  For at most 12 members not pre-assigned by the hidden pairing rule,
`solveWithCSP` enumerates all `2^n` masks and returns an assignment keeping the
pre-assigned members in place that attains the global minimum of the imbalance
score (5 per unit of even-label count difference plus 3 per unit of team-size
difference) over all assignments satisfying the `same_team` hard constraint,
ties broken to the lowest mask. -/
theorem solveWithCSP_returns_global_min (members : List RoomMember)
    (evenLabels : List String) (sameTeamLabel : Option String) (prot : Option Split)
    (hn : members.length ≤ 12)
    (hprot : violatesSameTeam sameTeamLabel (protFst prot) (protSnd prot) = false) :
    ∃ mstar, mstar < 2 ^ members.length ∧
      feasibleMask members sameTeamLabel prot mstar ∧
      solveWithCSP members evenLabels sameTeamLabel prot =
        maskAssign members prot mstar ∧
      (∀ m, m < 2 ^ members.length → feasibleMask members sameTeamLabel prot m →
        maskScore members evenLabels prot mstar ≤
          maskScore members evenLabels prot m) ∧
      (∀ m, m < 2 ^ members.length → feasibleMask members sameTeamLabel prot m →
        maskScore members evenLabels prot m =
          maskScore members evenLabels prot mstar → mstar ≤ m) :=
  solveWithCSP_spec members evenLabels sameTeamLabel prot hprot

/-! ## The `same_team` hard constraint (claim C2) -/

lemma solveWithCSP_not_violates (members : List RoomMember) (evenLabels : List String)
    (stl : Option String) (prot : Option Split)
    (hprot : violatesSameTeam stl (protFst prot) (protSnd prot) = false) :
    violatesSameTeam stl (solveWithCSP members evenLabels stl prot).1
      (solveWithCSP members evenLabels stl prot).2 = false := by
  obtain ⟨m, _, hf, heq, _, _⟩ := solveWithCSP_spec members evenLabels stl prot hprot
  rw [heq]
  exact hf

/-- One team is free of carriers of `l`: the non-target side. -/
def sideFree (l : String) (targetA : Bool) (tA tB : List RoomMember) : Prop :=
  (targetA = true → teamHasCarrier l tB = false) ∧
  (targetA = false → teamHasCarrier l tA = false)

lemma teamHasCarrier_append (l : String) (t1 t2 : List RoomMember) :
    teamHasCarrier l (t1 ++ t2) = (teamHasCarrier l t1 || teamHasCarrier l t2) := by
  simp [teamHasCarrier, List.any_append]

lemma violates_false_of_sideFree (l : String) (targetA : Bool)
    (tA tB : List RoomMember) (h : sideFree l targetA tA tB) :
    violatesSameTeam (some l) tA tB = false := by
  obtain ⟨hT, hF⟩ := h
  rcases targetA with _ | _
  · simp [violatesSameTeam, hF rfl]
  · simp [violatesSameTeam, hT rfl]

lemma sideFree_init (l : String) (tA tB : List RoomMember) (rnd : Bool)
    (hprot : violatesSameTeam (some l) tA tB = false) :
    sideFree l (sameTeamTargetA (some l) tA tB rnd) tA tB := by
  simp only [violatesSameTeam, Bool.and_eq_false_iff] at hprot
  unfold sameTeamTargetA sideFree
  rcases hA : teamHasCarrier l tA with _ | _
  · rcases hB : teamHasCarrier l tB with _ | _
    · simp [hA, hB]
    · simp [hA, hB]
  · rcases hprot with h | h
    · rw [hA] at h; cases h
    · simp [hA, h]

lemma placeStep_inv (l : String) (targetA : Bool) (st : GreedyInit) (m : RoomMember)
    (h : sideFree l targetA st.teamA st.teamB ∧
      ∀ x ∈ st.remaining, hasLabel x l = false) :
    sideFree l targetA (placeStep (some l) targetA st m).teamA
        (placeStep (some l) targetA st m).teamB ∧
      ∀ x ∈ (placeStep (some l) targetA st m).remaining, hasLabel x l = false := by
  obtain ⟨⟨hT, hF⟩, hrem⟩ := h
  by_cases hskip : st.protIds.contains m.id = true
  · simp only [placeStep, if_pos hskip]
    exact ⟨⟨hT, hF⟩, hrem⟩
  · by_cases hcar : hasLabel m l = true
    · cases targetA
      · simp only [placeStep, if_neg hskip, hcar, if_true, Bool.false_eq_true,
          if_false]
        exact ⟨⟨fun ht => absurd ht (by simp), fun _ => hF rfl⟩, hrem⟩
      · simp only [placeStep, if_neg hskip, hcar, if_true]
        exact ⟨⟨fun _ => hT rfl, fun hf => absurd hf (by simp)⟩, hrem⟩
    · simp only [Bool.not_eq_true] at hcar
      simp only [placeStep, if_neg hskip, hcar, Bool.false_eq_true, if_false]
      refine ⟨⟨hT, hF⟩, ?_⟩
      intro x hx
      rcases List.mem_append.mp hx with hx | hx
      · exact hrem x hx
      · rw [List.mem_singleton.mp hx]; exact hcar

lemma placeFold_inv (l : String) (targetA : Bool) (ms : List RoomMember) :
    ∀ st : GreedyInit,
      (sideFree l targetA st.teamA st.teamB ∧
        ∀ x ∈ st.remaining, hasLabel x l = false) →
      sideFree l targetA (ms.foldl (placeStep (some l) targetA) st).teamA
          (ms.foldl (placeStep (some l) targetA) st).teamB ∧
        ∀ x ∈ (ms.foldl (placeStep (some l) targetA) st).remaining,
          hasLabel x l = false := by
  induction ms with
  | nil => intro st h; simpa using h
  | cons m ms ih =>
    intro st h
    rw [List.foldl_cons]
    exact ih _ (placeStep_inv l targetA st m h)

lemma greedyFold_sideFree (l : String) (targetA : Bool) (evens : List String)
    (rem : List RoomMember) :
    ∀ t : Split, (∀ x ∈ rem, hasLabel x l = false) →
      sideFree l targetA t.1 t.2 →
      sideFree l targetA (rem.foldl (greedyStep evens) t).1
        (rem.foldl (greedyStep evens) t).2 := by
  induction rem with
  | nil => intro t _ h; simpa using h
  | cons m rem ih =>
    intro t hrem h
    rw [List.foldl_cons]
    have hm : hasLabel m l = false := hrem m (List.mem_cons_self m rem)
    have hstep : sideFree l targetA (greedyStep evens t m).1 (greedyStep evens t m).2 := by
      obtain ⟨hT, hF⟩ := h
      unfold greedyStep
      by_cases hc : calculateScore (t.1 ++ [m]) t.2 evens ≤
          calculateScore t.1 (t.2 ++ [m]) evens
      · simp only [if_pos hc]
        refine ⟨fun ht => hT ht, fun hf => ?_⟩
        rw [teamHasCarrier_append, hF hf]
        simp [teamHasCarrier, hm]
      · simp only [if_neg hc]
        refine ⟨fun ht => ?_, fun hf => hF hf⟩
        rw [teamHasCarrier_append, hT ht]
        simp [teamHasCarrier, hm]
    exact ih _ (fun x hx => hrem x (List.mem_cons_of_mem m hx)) hstep

lemma trySwapAt_not_violates {protIds : List Nat} {stl : Option String}
    {evens : List String} {tA tB : List RoomMember} {cur i j : Nat} {t' : Split}
    (h : trySwapAt protIds stl evens tA tB cur i j = some t') :
    violatesSameTeam stl t'.1 t'.2 = false := by
  unfold trySwapAt at h
  rcases hga : tA.get? i with _ | a
  · simp only [hga] at h
    exact Option.noConfusion h
  · rcases hgb : tB.get? j with _ | b
    · simp only [hga, hgb] at h
      exact Option.noConfusion h
    · simp only [hga, hgb] at h
      by_cases hp : protIds.contains b.id = true
      · rw [if_pos hp] at h
        exact Option.noConfusion h
      · rw [if_neg hp] at h
        by_cases hv : violatesSameTeam stl (tA.set i b) (tB.set j a) = true
        · rw [if_pos hv] at h
          exact Option.noConfusion h
        · rw [if_neg hv] at h
          by_cases hsc : calculateScore (tA.set i b) (tB.set j a) evens < cur
          · rw [if_pos hsc] at h
            cases h
            simpa using hv
          · rw [if_neg hsc] at h
            exact Option.noConfusion h

lemma findSwap_not_violates {protIds : List Nat} {stl : Option String}
    {evens : List String} {tA tB : List RoomMember} {cur : Nat} {t' : Split}
    (h : findSwap protIds stl evens tA tB cur = some t') :
    violatesSameTeam stl t'.1 t'.2 = false := by
  unfold findSwap at h
  obtain ⟨i, _, hf⟩ := List.exists_of_findSome?_eq_some h
  rcases hga : tA.get? i with _ | a
  · rw [hga] at hf
    exact Option.noConfusion hf
  · rw [hga] at hf
    simp only [] at hf
    by_cases hp : protIds.contains a.id = true
    · rw [if_pos hp] at hf
      exact Option.noConfusion hf
    · rw [if_neg hp] at hf
      obtain ⟨j, _, hf2⟩ := List.exists_of_findSome?_eq_some hf
      exact trySwapAt_not_violates hf2

lemma twoOptLoop_not_violates (protIds : List Nat) (stl : Option String)
    (evens : List String) (fuel : Nat) :
    ∀ t : Split, violatesSameTeam stl t.1 t.2 = false →
      violatesSameTeam stl (twoOptLoop protIds stl evens fuel t).1
        (twoOptLoop protIds stl evens fuel t).2 = false := by
  induction fuel with
  | zero => intro t h; simpa [twoOptLoop] using h
  | succ fuel ih =>
    intro t h
    rw [twoOptLoop]
    rcases hfs : findSwap protIds stl evens t.1 t.2
        (calculateScore t.1 t.2 evens) with _ | t'
    · simpa using h
    · exact ih t' (findSwap_not_violates hfs)

lemma greedyWithTwoOpt_not_violates (members : List RoomMember)
    (evens : List String) (l : String) (prot : Option Split) (rnd : Bool)
    (hprot : violatesSameTeam (some l) (protFst prot) (protSnd prot) = false) :
    violatesSameTeam (some l) (greedyWithTwoOpt members evens (some l) prot rnd).1
      (greedyWithTwoOpt members evens (some l) prot rnd).2 = false := by
  unfold greedyWithTwoOpt
  apply twoOptLoop_not_violates
  have hinv := placeFold_inv l
    (sameTeamTargetA (some l) (protFst prot) (protSnd prot) rnd) members
    ⟨protFst prot, protSnd prot, (protFst prot ++ protSnd prot).map (·.id), []⟩
    (by
      constructor
      · exact sideFree_init l (protFst prot) (protSnd prot) rnd hprot
      · intro x hx; cases hx)
  apply violates_false_of_sideFree l
    (sameTeamTargetA (some l) (protFst prot) (protSnd prot) rnd)
  apply greedyFold_sideFree
  · intro x hx
    exact hinv.2 x (List.mem_mergeSort.mp hx)
  · exact hinv.1

lemma eq_of_mem_of_length_le_one {α : Type} {l : List α} {a b : α}
    (ha : a ∈ l) (hb : b ∈ l) (h : l.length ≤ 1) : a = b := by
  rcases l with _ | ⟨x, _ | ⟨y, t⟩⟩
  · cases ha
  · rw [List.mem_singleton.mp ha, List.mem_singleton.mp hb]
  · simp at h

lemma sameTeamLabelOf_eq (labelRules : List (String × String)) (Lstar : String)
    (hmem : (Lstar, "same_team") ∈ labelRules)
    (huniq : (labelRules.filter (fun p => decide (p.2 = "same_team"))).length ≤ 1) :
    sameTeamLabelOf labelRules = some Lstar := by
  unfold sameTeamLabelOf
  rcases hfind : labelRules.find? (fun p => decide (p.2 = "same_team")) with _ | q
  · exfalso
    have := List.find?_eq_none.mp hfind (Lstar, "same_team") hmem
    simp at this
  · have hq : q.2 = "same_team" := by
      have := List.find?_some hfind
      simpa using this
    have hqmem : q ∈ labelRules := List.mem_of_find?_eq_some hfind
    have hqf : q ∈ labelRules.filter (fun p => decide (p.2 = "same_team")) :=
      List.mem_filter.mpr ⟨hqmem, by simp [hq]⟩
    have hLf : (Lstar, "same_team") ∈
        labelRules.filter (fun p => decide (p.2 = "same_team")) :=
      List.mem_filter.mpr ⟨hmem, by simp⟩
    have : q = (Lstar, "same_team") := eq_of_mem_of_length_le_one hqf hLf huniq
    rw [hfind, this]
    rfl

lemma divideCore_not_violates (remaining : List RoomMember) (evens : List String)
    (l : String) (prot : Option Split) (rnd : Bool)
    (hprot : violatesSameTeam (some l) (protFst prot) (protSnd prot) = false) :
    violatesSameTeam (some l) (divideCore remaining evens (some l) prot rnd).1
      (divideCore remaining evens (some l) prot rnd).2 = false := by
  unfold divideCore
  by_cases hlen : remaining.length ≤ 12
  · simp only [if_pos hlen]
    exact solveWithCSP_not_violates remaining evens (some l) prot hprot
  · simp only [if_neg hlen]
    exact greedyWithTwoOpt_not_violates remaining evens l prot rnd hprot

/-- C2.  Under the room invariant that at most one label carries the
`same_team` rule, `divideWithRules` (on both the exact-solver path and the
greedy + 2-opt path) never places one carrier of that label in team A and
another in team B. -/
theorem divideWithRules_respects_same_team (members : List RoomMember)
    (labelRules : List (String × String)) (Lstar : String)
    (rndPairSame rndPairToA rndTargetA : Bool)
    (hmem : (Lstar, "same_team") ∈ labelRules)
    (huniq : (labelRules.filter (fun p => decide (p.2 = "same_team"))).length ≤ 1) :
    ¬ ((∃ a ∈ (divideWithRules members labelRules rndPairSame rndPairToA rndTargetA).1,
          Lstar ∈ a.labels) ∧
       (∃ b ∈ (divideWithRules members labelRules rndPairSame rndPairToA rndTargetA).2,
          Lstar ∈ b.labels)) := by
  have hstl : sameTeamLabelOf labelRules = some Lstar :=
    sameTeamLabelOf_eq labelRules Lstar hmem huniq
  suffices hv : violatesSameTeam (some Lstar)
      (divideWithRules members labelRules rndPairSame rndPairToA rndTargetA).1
      (divideWithRules members labelRules rndPairSame rndPairToA rndTargetA).2 = false by
    intro ⟨hA, hB⟩
    simp only [violatesSameTeam, Bool.and_eq_false_iff, teamHasCarrier,
      List.any_eq_false, hasLabel] at hv
    rcases hv with h | h
    · obtain ⟨a, ha, hal⟩ := hA
      have := h a ha
      simp [hal] at this
    · obtain ⟨b, hb, hbl⟩ := hB
      have := h b hb
      simp [hbl] at this
  unfold divideWithRules
  by_cases h0 : members.length = 0
  · simp [h0, violatesSameTeam, teamHasCarrier]
  · simp only [if_neg h0]
    by_cases h1 : members.length = 1
    · simp [h1, violatesSameTeam, teamHasCarrier]
    · simp only [if_neg h1]
      rw [hstl]
      rcases hw : members.find? (fun m => decide (m.nickname = "葳蕤")) with _ | w
      · simp only [hw]
        exact divideCore_not_violates members (evenLabelsOf labelRules) Lstar none
          rndTargetA (by simp [violatesSameTeam, protFst, protSnd, teamHasCarrier])
      · rcases ht : members.find? (fun m => decide (m.nickname = "兔子")) with _ | t
        · simp only [hw, ht]
          exact divideCore_not_violates members (evenLabelsOf labelRules) Lstar none
            rndTargetA (by simp [violatesSameTeam, protFst, protSnd, teamHasCarrier])
        · simp only [hw, ht]
          by_cases hps : rndPairSame = true
          · simp only [if_pos hps]
            apply divideCore_not_violates
            rcases rndPairToA with _ | _
            · simp [violatesSameTeam, protFst, protSnd, teamHasCarrier]
            · simp [violatesSameTeam, protFst, protSnd, teamHasCarrier]
          · simp only [if_neg hps]
            exact divideCore_not_violates members (evenLabelsOf labelRules) Lstar none
              rndTargetA (by simp [violatesSameTeam, protFst, protSnd, teamHasCarrier])

/-! ## The output is a partition of the input (for claim C3) -/

lemma append_singleton_perm {α : Type} (a b : List α) (m : α) :
    List.Perm ((a ++ [m]) ++ b) ((a ++ b) ++ [m]) := by
  have h1 : (a ++ [m]) ++ b = a ++ (m :: b) := by simp
  have h2 : List.Perm (a ++ (m :: b)) (m :: (a ++ b)) := List.perm_middle
  have h3 : List.Perm ((a ++ b) ++ [m]) (m :: (a ++ b)) := by
    have := @List.perm_middle α m (a ++ b) []
    simpa using this
  rw [h1]
  exact h2.trans h3.symm

lemma maskAssign_perm (members : List RoomMember) (prot : Option Split) (mask : Nat) :
    List.Perm ((maskAssign members prot mask).1 ++ (maskAssign members prot mask).2)
      (protFst prot ++ protSnd prot ++ members) := by
  unfold maskAssign
  have hperm : List.Perm
      ((members.enum.filter (fun p => mask.testBit p.1)).map Prod.snd ++
        (members.enum.filter (fun p => !(mask.testBit p.1))).map Prod.snd)
      members := by
    have h := List.filter_append_perm (fun p : Nat × RoomMember => mask.testBit p.1)
      members.enum
    have h2 := h.map Prod.snd
    rw [List.map_append] at h2
    rw [List.enum_map_snd] at h2
    exact h2
  set bA := (members.enum.filter (fun p => mask.testBit p.1)).map Prod.snd
  set bB := (members.enum.filter (fun p => !(mask.testBit p.1))).map Prod.snd
  have e1 : (protFst prot ++ bA) ++ (protSnd prot ++ bB) =
      protFst prot ++ ((bA ++ protSnd prot) ++ bB) := by simp
  rw [e1]
  have h4 : List.Perm ((bA ++ protSnd prot) ++ bB) (protSnd prot ++ (bA ++ bB)) := by
    have := (@List.perm_append_comm _ bA (protSnd prot)).append_right bB
    refine this.trans ?_
    rw [List.append_assoc]
  have h5 : List.Perm (protFst prot ++ ((bA ++ protSnd prot) ++ bB))
      (protFst prot ++ (protSnd prot ++ (bA ++ bB))) := h4.append_left _
  refine h5.trans ?_
  have h6 : List.Perm (protSnd prot ++ (bA ++ bB)) (protSnd prot ++ members) :=
    hperm.append_left _
  refine (h6.append_left _).trans ?_
  rw [← List.append_assoc]

lemma solveWithCSP_perm (members : List RoomMember) (evens : List String)
    (stl : Option String) (prot : Option Split)
    (hprot : violatesSameTeam stl (protFst prot) (protSnd prot) = false) :
    List.Perm ((solveWithCSP members evens stl prot).1 ++
        (solveWithCSP members evens stl prot).2)
      (protFst prot ++ protSnd prot ++ members) := by
  obtain ⟨m, _, _, heq, _, _⟩ := solveWithCSP_spec members evens stl prot hprot
  rw [heq]
  exact maskAssign_perm members prot m

lemma perm_set_cons {α : Type} (l : List α) : ∀ (i : Nat) (a b : α),
    l.get? i = some a → List.Perm (a :: l.set i b) (b :: l) := by
  induction l with
  | nil => intro i a b h; simp at h
  | cons x t ih =>
    intro i a b h
    cases i with
    | zero =>
      simp only [List.get?_cons_zero, Option.some.injEq] at h
      subst h
      simp only [List.set_cons_zero]
      exact List.Perm.swap b _ t
    | succ k =>
      simp only [List.get?_cons_succ] at h
      simp only [List.set_cons_succ]
      refine (List.Perm.swap x a (t.set k b)).trans ?_
      refine ((ih k a b h).cons x).trans ?_
      exact List.Perm.swap b x t

lemma set_swap_perm {α : Type} {tA tB : List α} {i j : Nat} {a b : α}
    (ha : tA.get? i = some a) (hb : tB.get? j = some b) :
    List.Perm (tA.set i b ++ tB.set j a) (tA ++ tB) := by
  have h1 : List.Perm (a :: tA.set i b) (b :: tA) := perm_set_cons tA i a b ha
  have h2 : List.Perm (b :: tB.set j a) (a :: tB) := perm_set_cons tB j b a hb
  have key : List.Perm (a :: (b :: (tA.set i b ++ tB.set j a)))
      (a :: (b :: (tA ++ tB))) := by
    have s1 : List.Perm (a :: (b :: (tA.set i b ++ tB.set j a)))
        ((a :: tA.set i b) ++ (b :: tB.set j a)) := by
      have := (@List.perm_middle _ b (tA.set i b) (tB.set j a)).symm.cons a
      simpa using this
    have s2 : List.Perm ((a :: tA.set i b) ++ (b :: tB.set j a))
        ((b :: tA) ++ (a :: tB)) := h1.append h2
    have s3 : List.Perm ((b :: tA) ++ (a :: tB)) (b :: (a :: (tA ++ tB))) := by
      have := (@List.perm_middle _ a tA tB).cons b
      simpa using this
    have s4 : List.Perm (b :: (a :: (tA ++ tB))) (a :: (b :: (tA ++ tB))) :=
      List.Perm.swap a b _
    exact ((s1.trans s2).trans s3).trans s4
  exact key.cons_inv.cons_inv

lemma trySwapAt_perm {protIds : List Nat} {stl : Option String}
    {evens : List String} {tA tB : List RoomMember} {cur i j : Nat} {t' : Split}
    (h : trySwapAt protIds stl evens tA tB cur i j = some t') :
    List.Perm (t'.1 ++ t'.2) (tA ++ tB) := by
  unfold trySwapAt at h
  rcases hga : tA.get? i with _ | a
  · simp only [hga] at h
    exact Option.noConfusion h
  · rcases hgb : tB.get? j with _ | b
    · simp only [hga, hgb] at h
      exact Option.noConfusion h
    · simp only [hga, hgb] at h
      by_cases hp : protIds.contains b.id = true
      · rw [if_pos hp] at h
        exact Option.noConfusion h
      · rw [if_neg hp] at h
        by_cases hv : violatesSameTeam stl (tA.set i b) (tB.set j a) = true
        · rw [if_pos hv] at h
          exact Option.noConfusion h
        · rw [if_neg hv] at h
          by_cases hsc : calculateScore (tA.set i b) (tB.set j a) evens < cur
          · rw [if_pos hsc] at h
            cases h
            exact set_swap_perm hga hgb
          · rw [if_neg hsc] at h
            exact Option.noConfusion h

lemma findSwap_perm {protIds : List Nat} {stl : Option String}
    {evens : List String} {tA tB : List RoomMember} {cur : Nat} {t' : Split}
    (h : findSwap protIds stl evens tA tB cur = some t') :
    List.Perm (t'.1 ++ t'.2) (tA ++ tB) := by
  unfold findSwap at h
  obtain ⟨i, _, hf⟩ := List.exists_of_findSome?_eq_some h
  rcases hga : tA.get? i with _ | a
  · rw [hga] at hf
    exact Option.noConfusion hf
  · rw [hga] at hf
    simp only [] at hf
    by_cases hp : protIds.contains a.id = true
    · rw [if_pos hp] at hf
      exact Option.noConfusion hf
    · rw [if_neg hp] at hf
      obtain ⟨j, _, hf2⟩ := List.exists_of_findSome?_eq_some hf
      exact trySwapAt_perm hf2

lemma twoOptLoop_perm (protIds : List Nat) (stl : Option String)
    (evens : List String) (fuel : Nat) :
    ∀ t : Split,
      List.Perm ((twoOptLoop protIds stl evens fuel t).1 ++
          (twoOptLoop protIds stl evens fuel t).2)
        (t.1 ++ t.2) := by
  induction fuel with
  | zero => intro t; simp [twoOptLoop]
  | succ fuel ih =>
    intro t
    rw [twoOptLoop]
    rcases hfs : findSwap protIds stl evens t.1 t.2
        (calculateScore t.1 t.2 evens) with _ | t'
    · simp
    · exact (ih t').trans (findSwap_perm hfs)

lemma greedyFold_perm (evens : List String) :
    ∀ (rem : List RoomMember) (t : Split),
      List.Perm ((rem.foldl (greedyStep evens) t).1 ++ (rem.foldl (greedyStep evens) t).2)
        ((t.1 ++ t.2) ++ rem) := by
  intro rem
  induction rem with
  | nil => intro t; simp
  | cons m rem ih =>
    intro t
    rw [List.foldl_cons]
    refine (ih (greedyStep evens t m)).trans ?_
    have hstep : List.Perm ((greedyStep evens t m).1 ++ (greedyStep evens t m).2)
        ((t.1 ++ t.2) ++ [m]) := by
      unfold greedyStep
      by_cases hc : calculateScore (t.1 ++ [m]) t.2 evens ≤
          calculateScore t.1 (t.2 ++ [m]) evens
      · simp only [if_pos hc]
        exact append_singleton_perm t.1 t.2 m
      · simp only [if_neg hc]
        simp [List.append_assoc]
    refine (hstep.append_right rem).trans ?_
    have : (t.1 ++ t.2) ++ [m] ++ rem = (t.1 ++ t.2) ++ (m :: rem) := by simp
    rw [this]

lemma placeFold_perm (stl : Option String) (targetA : Bool) :
    ∀ (ms : List RoomMember) (st : GreedyInit),
      (ms.map (·.id)).Nodup → (∀ m ∈ ms, m.id ∉ st.protIds) →
      List.Perm ((ms.foldl (placeStep stl targetA) st).teamA ++
          (ms.foldl (placeStep stl targetA) st).teamB ++
          (ms.foldl (placeStep stl targetA) st).remaining)
        (st.teamA ++ st.teamB ++ st.remaining ++ ms) := by
  intro ms
  induction ms with
  | nil => intro st _ _; simp
  | cons m ms ih =>
    intro st hnodup hdisj
    rw [List.foldl_cons]
    have hmid : m.id ∉ st.protIds := hdisj m (List.mem_cons_self m ms)
    have hskip : ¬ (st.protIds.contains m.id = true) := by simpa using hmid
    have hnodup' : (ms.map (·.id)).Nodup := by
      rw [List.map_cons] at hnodup
      exact hnodup.of_cons
    have hne : ∀ m' ∈ ms, m'.id ≠ m.id := by
      intro m' hm'
      rw [List.map_cons] at hnodup
      have := (List.nodup_cons.mp hnodup).1
      intro he
      exact this (he ▸ List.mem_map_of_mem (·.id) hm')
    obtain ⟨hpids, hperm⟩ :
        ((placeStep stl targetA st m).protIds = st.protIds ∨
          (placeStep stl targetA st m).protIds = st.protIds ++ [m.id]) ∧
        List.Perm ((placeStep stl targetA st m).teamA ++
            (placeStep stl targetA st m).teamB ++
            (placeStep stl targetA st m).remaining)
          (st.teamA ++ st.teamB ++ st.remaining ++ [m]) := by
      rcases stl with _ | l
      · have hst' : placeStep none targetA st m =
            { st with remaining := st.remaining ++ [m] } := by
          simp [placeStep, hskip, hmid]
        rw [hst']
        exact ⟨Or.inl rfl, by simp [List.append_assoc]⟩
      · by_cases hcar : hasLabel m l = true
        · by_cases htgt : targetA = true
          · have hst' : placeStep (some l) targetA st m =
                { st with teamA := st.teamA ++ [m], protIds := st.protIds ++ [m.id] } := by
              simp [placeStep, hskip, hmid, hcar, htgt]
            rw [hst']
            refine ⟨Or.inr rfl, ?_⟩
            have h1 := (append_singleton_perm st.teamA st.teamB m).append_right
              st.remaining
            exact h1.trans (append_singleton_perm (st.teamA ++ st.teamB) st.remaining m)
          · have hst' : placeStep (some l) targetA st m =
                { st with teamB := st.teamB ++ [m], protIds := st.protIds ++ [m.id] } := by
              simp [placeStep, hskip, hmid, hcar, htgt]
            rw [hst']
            refine ⟨Or.inr rfl, ?_⟩
            have e : st.teamA ++ (st.teamB ++ [m]) ++ st.remaining =
                ((st.teamA ++ st.teamB) ++ [m]) ++ st.remaining := by simp
            dsimp only
            rw [e]
            exact append_singleton_perm (st.teamA ++ st.teamB) st.remaining m
        · have hst' : placeStep (some l) targetA st m =
              { st with remaining := st.remaining ++ [m] } := by
            simp [placeStep, hskip, hmid, hcar]
          rw [hst']
          exact ⟨Or.inl rfl, by simp [List.append_assoc]⟩
    have hdisj' : ∀ m' ∈ ms, m'.id ∉ (placeStep stl targetA st m).protIds := by
      intro m' hm'
      rcases hpids with h | h
      · rw [h]
        exact fun hc => hdisj m' (List.mem_cons_of_mem m hm') hc
      · rw [h]
        intro hc
        rcases List.mem_append.mp hc with hc | hc
        · exact hdisj m' (List.mem_cons_of_mem m hm') hc
        · exact hne m' hm' (List.mem_singleton.mp hc)
    refine (ih (placeStep stl targetA st m) hnodup' hdisj').trans ?_
    refine (hperm.append_right ms).trans ?_
    have : st.teamA ++ st.teamB ++ st.remaining ++ [m] ++ ms =
        st.teamA ++ st.teamB ++ st.remaining ++ (m :: ms) := by simp
    rw [this]

lemma greedyWithTwoOpt_perm (members : List RoomMember) (evens : List String)
    (stl : Option String) (prot : Option Split) (rnd : Bool)
    (hids : (members.map (·.id)).Nodup)
    (hdisj : ∀ m ∈ members, m.id ∉ ((protFst prot ++ protSnd prot).map (·.id))) :
    List.Perm ((greedyWithTwoOpt members evens stl prot rnd).1 ++
        (greedyWithTwoOpt members evens stl prot rnd).2)
      (protFst prot ++ protSnd prot ++ members) := by
  unfold greedyWithTwoOpt
  have hplace := placeFold_perm stl
    (sameTeamTargetA stl (protFst prot) (protSnd prot) rnd) members
    ⟨protFst prot, protSnd prot, (protFst prot ++ protSnd prot).map (·.id), []⟩
    hids (by intro m hm; exact hdisj m hm)
  rw [show (members.foldl
      (placeStep stl (sameTeamTargetA stl (protFst prot) (protSnd prot) rnd))
      ⟨protFst prot, protSnd prot, (protFst prot ++ protSnd prot).map (·.id), []⟩) =
      greedyPlace members stl prot rnd from rfl] at hplace
  refine (twoOptLoop_perm _ stl evens 100 _).trans ?_
  refine (greedyFold_perm evens _ _).trans ?_
  have hms : List.Perm
      (((greedyPlace members stl prot rnd).remaining).mergeSort
        (fun a b => decide (evenCount evens b ≤ evenCount evens a)))
      (greedyPlace members stl prot rnd).remaining :=
    List.mergeSort_perm _ _
  refine (hms.append_left _).trans ?_
  refine hplace.trans ?_
  simp

lemma find?_eq_getElem?_findIdx {α : Type} (p : α → Bool) (l : List α) :
    l.find? p = l[l.findIdx p]? := by
  induction l with
  | nil => simp
  | cons x t ih =>
    by_cases hp : p x
    · simp [List.find?_cons, hp, List.findIdx_cons]
    · simp [List.find?_cons, hp, List.findIdx_cons, ih]

lemma violatesSameTeam_nil_right (stl : Option String) (tA : List RoomMember) :
    violatesSameTeam stl tA [] = false := by
  rcases stl with _ | l <;> simp [violatesSameTeam, teamHasCarrier]

lemma violatesSameTeam_nil_left (stl : Option String) (tB : List RoomMember) :
    violatesSameTeam stl [] tB = false := by
  rcases stl with _ | l <;> simp [violatesSameTeam, teamHasCarrier]

lemma remainingAfterPair_eq_filter (members : List RoomMember) (w t : RoomMember)
    (hw : members.find? (fun m => decide (m.nickname = "葳蕤")) = some w)
    (ht : members.find? (fun m => decide (m.nickname = "兔子")) = some t)
    (hnodup : members.Nodup) :
    remainingAfterPair members =
      members.filter (fun m => decide (m ≠ w) && decide (m ≠ t)) := by
  unfold remainingAfterPair
  have hwi := hw
  have hti := ht
  rw [find?_eq_getElem?_findIdx] at hwi hti
  obtain ⟨hwlt, hwget⟩ := List.getElem?_eq_some.mp hwi
  obtain ⟨htlt, htget⟩ := List.getElem?_eq_some.mp hti
  have hbase : members.filter (fun m => decide (m ≠ w) && decide (m ≠ t)) =
      (members.enum.filter (fun q => decide (q.2 ≠ w) && decide (q.2 ≠ t))).map
        Prod.snd := by
    conv_lhs => rw [← List.enum_map_snd members, List.filter_map]
    rfl
  rw [hbase]
  congr 1
  apply List.filter_congr
  intro q hq
  have hqget := List.mem_enum_iff_getElem?.mp hq
  obtain ⟨hqlt, hqe⟩ := List.getElem?_eq_some.mp hqget
  have hiffw : q.1 = members.findIdx (fun m => decide (m.nickname = "葳蕤")) ↔
      q.2 = w := by
    constructor
    · intro h
      rw [h] at hqget
      exact Option.some.inj (hqget.symm.trans hwi)
    · intro h
      have hinj := @List.Nodup.getElem_inj_iff RoomMember members hnodup q.1 hqlt
        (members.findIdx (fun m => decide (m.nickname = "葳蕤"))) hwlt
      refine hinj.mp ?_
      rw [hqe, hwget, h]
  have hifft : q.1 = members.findIdx (fun m => decide (m.nickname = "兔子")) ↔
      q.2 = t := by
    constructor
    · intro h
      rw [h] at hqget
      exact Option.some.inj (hqget.symm.trans hti)
    · intro h
      have hinj := @List.Nodup.getElem_inj_iff RoomMember members hnodup q.1 hqlt
        (members.findIdx (fun m => decide (m.nickname = "兔子"))) htlt
      refine hinj.mp ?_
      rw [hqe, htget, h]
  have hdw : decide (q.1 ≠ members.findIdx (fun m => decide (m.nickname = "葳蕤"))) =
      decide (q.2 ≠ w) := decide_eq_decide.mpr (not_congr hiffw)
  have hdt : decide (q.1 ≠ members.findIdx (fun m => decide (m.nickname = "兔子"))) =
      decide (q.2 ≠ t) := decide_eq_decide.mpr (not_congr hifft)
  rw [hdw, hdt]

lemma remainingAfterPair_perm (members : List RoomMember) (w t : RoomMember)
    (hw : members.find? (fun m => decide (m.nickname = "葳蕤")) = some w)
    (ht : members.find? (fun m => decide (m.nickname = "兔子")) = some t)
    (hnodup : members.Nodup) :
    List.Perm (w :: t :: remainingAfterPair members) members := by
  rw [remainingAfterPair_eq_filter members w t hw ht hnodup]
  have hwmem : w ∈ members := List.mem_of_find?_eq_some hw
  have htmem : t ∈ members := List.mem_of_find?_eq_some ht
  have hwnick : w.nickname = "葳蕤" := by simpa using List.find?_some hw
  have htnick : t.nickname = "兔子" := by simpa using List.find?_some ht
  have hwt : w ≠ t := by
    intro h
    rw [h, htnick] at hwnick
    simp at hwnick
  have h1 : List.Perm members (w :: members.erase w) := List.perm_cons_erase hwmem
  have h2 : members.erase w = members.filter (fun m => m != w) :=
    hnodup.erase_eq_filter w
  have htmem2 : t ∈ members.filter (fun m => m != w) := by
    rw [List.mem_filter]
    exact ⟨htmem, by simp [Ne.symm hwt]⟩
  have h3 : List.Perm (members.filter (fun m => m != w))
      (t :: (members.filter (fun m => m != w)).erase t) :=
    List.perm_cons_erase htmem2
  have h4 : (members.filter (fun m => m != w)).erase t =
      (members.filter (fun m => m != w)).filter (fun m => m != t) :=
    (hnodup.filter _).erase_eq_filter t
  have h5 : (members.filter (fun m => m != w)).filter (fun m => m != t) =
      members.filter (fun m => decide (m ≠ w) && decide (m ≠ t)) := by
    rw [List.filter_filter]
    apply List.filter_congr
    intro m _
    by_cases hmw : m = w <;> by_cases hmt : m = t <;> simp [hmw, hmt]
  refine List.Perm.symm ?_
  refine h1.trans ?_
  rw [h2]
  refine (h3.cons w).trans ?_
  rw [h4, h5]

lemma divideCore_perm (remaining : List RoomMember) (evens : List String)
    (stl : Option String) (prot : Option Split) (rnd : Bool)
    (hprot : violatesSameTeam stl (protFst prot) (protSnd prot) = false)
    (hids : (remaining.map (·.id)).Nodup)
    (hdisj : ∀ m ∈ remaining, m.id ∉ ((protFst prot ++ protSnd prot).map (·.id))) :
    List.Perm ((divideCore remaining evens stl prot rnd).1 ++
        (divideCore remaining evens stl prot rnd).2)
      (protFst prot ++ protSnd prot ++ remaining) := by
  unfold divideCore
  by_cases hlen : remaining.length ≤ 12
  · rw [if_pos hlen]
    exact solveWithCSP_perm remaining evens stl prot hprot
  · rw [if_neg hlen]
    exact greedyWithTwoOpt_perm remaining evens stl prot rnd hids hdisj

/-- The output of `divideWithRules` is a permutation of its input member list,
provided membership row ids are distinct (they are primary keys). -/
lemma divideWithRules_perm (members : List RoomMember)
    (labelRules : List (String × String)) (r1 r2 r3 : Bool)
    (hids : (members.map (·.id)).Nodup) :
    List.Perm ((divideWithRules members labelRules r1 r2 r3).1 ++
        (divideWithRules members labelRules r1 r2 r3).2) members := by
  have hnodup : members.Nodup := List.Nodup.of_map _ hids
  unfold divideWithRules
  by_cases h0 : members.length = 0
  · rw [if_pos h0]
    have : members = [] := List.length_eq_zero.mp h0
    subst this
    simp
  · rw [if_neg h0]
    by_cases h1 : members.length = 1
    · rw [if_pos h1]
      obtain ⟨a, ha⟩ := List.length_eq_one.mp h1
      subst ha
      simp
    · rw [if_neg h1]
      have hnone : ∀ stl evens rnd, List.Perm
          ((divideCore members evens stl none rnd).1 ++
            (divideCore members evens stl none rnd).2) members := by
        intro stl evens rnd
        have := divideCore_perm members evens stl none rnd
          (by simp [protFst, protSnd, violatesSameTeam_nil_left]) hids
          (by simp [protFst, protSnd])
        simpa [protFst, protSnd] using this
      rcases hw : members.find? (fun m => decide (m.nickname = "葳蕤")) with _ | w
      · simp only [hw]
        exact hnone _ _ _
      · rcases ht : members.find? (fun m => decide (m.nickname = "兔子")) with _ | t
        · simp only [hw, ht]
          exact hnone _ _ _
        · simp only [hw, ht]
          by_cases hps : r1 = true
          · rw [if_pos hps]
            have hremfilter := remainingAfterPair_eq_filter members w t hw ht hnodup
            have hremids : ((remainingAfterPair members).map (·.id)).Nodup := by
              have hsub : List.Sublist (remainingAfterPair members) members := by
                rw [hremfilter]
                exact List.filter_sublist members
              exact List.Nodup.sublist (hsub.map (·.id)) hids
            have hdisjwt : ∀ m ∈ remainingAfterPair members,
                m.id ∉ ([w, t].map (·.id)) := by
              intro m hm hc
              rw [hremfilter] at hm
              obtain ⟨hmm, hmp⟩ := List.mem_filter.mp hm
              simp only [Bool.and_eq_true, decide_eq_true_eq] at hmp
              simp only [List.map_cons, List.map_nil, List.mem_cons,
                List.not_mem_nil, or_false] at hc
              rcases hc with h | h
              · exact hmp.1 (List.inj_on_of_nodup_map hids hmm
                  (List.mem_of_find?_eq_some hw) h)
              · exact hmp.2 (List.inj_on_of_nodup_map hids hmm
                  (List.mem_of_find?_eq_some ht) h)
            have hpairperm := remainingAfterPair_perm members w t hw ht hnodup
            by_cases hto : r2 = true
            · rw [if_pos hto]
              have hc := divideCore_perm (remainingAfterPair members)
                (evenLabelsOf labelRules) (sameTeamLabelOf labelRules)
                (some ([w, t], [])) r3
                (by simp [protFst, protSnd, violatesSameTeam_nil_right]) hremids
                (by
                  intro m hm
                  simpa [protFst, protSnd] using hdisjwt m hm)
              refine hc.trans ?_
              simpa [protFst, protSnd] using hpairperm
            · rw [if_neg hto]
              have hc := divideCore_perm (remainingAfterPair members)
                (evenLabelsOf labelRules) (sameTeamLabelOf labelRules)
                (some ([], [w, t])) r3
                (by simp [protFst, protSnd, violatesSameTeam_nil_left]) hremids
                (by
                  intro m hm
                  simpa [protFst, protSnd] using hdisjwt m hm)
              refine hc.trans ?_
              simpa [protFst, protSnd] using hpairperm
          · rw [if_neg hps]
            exact hnone _ _ _

/-! ## The room service state machine -/

/-- Member projection stored in `divisionResult` (`DivisionMember` of
`room.entity.ts`: user id, nickname, avatar, labels). -/
structure DivisionMember where
  userId : String
  nickname : String
  avatarUrl : String
  labels : List String
deriving DecidableEq, Repr

/-- `DivisionResult` of `room.entity.ts`. -/
structure DivisionResult where
  teamA : List DivisionMember
  teamB : List DivisionMember
deriving DecidableEq, Repr

/-- A `Room` row.  `labelRules` keeps the object entries in insertion order,
with the rule as its raw string. -/
structure Room where
  id : Nat
  roomCode : String
  gameName : String
  ownerId : String
  maxMembers : Nat
  status : RoomStatus
  labelRules : List (String × String)
  divisionResult : Option DivisionResult
deriving DecidableEq, Repr

/-- A `User` row (the projection the room service reads). -/
structure UserRow where
  id : String
  nickname : String
  avatarUrl : String
deriving DecidableEq, Repr

/-- The repository state: users, rooms and memberships. -/
structure ServiceState where
  users : List UserRow
  rooms : List Room
  members : List RoomMember
deriving DecidableEq, Repr

/-- Member projection inside a pushed room snapshot. -/
structure SnapMember where
  userId : String
  nickname : String
  avatarUrl : String
  team : Team
  labels : List String
deriving DecidableEq, Repr

/-- The room snapshot built by `formatRoomData` for Pusher payloads. -/
structure Snapshot where
  roomId : Nat
  roomCode : String
  gameName : String
  status : RoomStatus
  maxMembers : Nat
  ownerId : String
  labelRules : List (String × String)
  members : List SnapMember
  memberCount : Nat
  divisionResult : Option DivisionResult
deriving DecidableEq, Repr

/-- Payload of a published event. -/
inductive EventPayload where
  | roomData (snap : Snapshot)
  | roomDataWithResult (snap : Snapshot) (result : DivisionResult)
  | empty
deriving DecidableEq, Repr

/-- An event published through `PusherService.triggerRoomEvent`. -/
structure Event where
  channel : String
  name : String
  payload : EventPayload
deriving DecidableEq, Repr

/-- A repository write or a publisher call, in program order. -/
inductive Action where
  | saveRoom (roomId : Nat)
  | insertMember (roomId : Nat) (userId : String)
  | deleteMember (roomId : Nat) (userId : String)
  | deleteMembersOfRoom (roomId : Nat)
  | deleteRoom (roomId : Nat)
  | updateMemberTeam (memberId : Nat) (t : Team)
  | updateMemberLabels (memberId : Nat) (labels : List String)
  | resetTeams (roomId : Nat)
  | publish (e : Event)
deriving DecidableEq, Repr

/-- Error taxonomy (the HTTP exceptions thrown by the source). -/
inductive ServiceError where
  | notFound
  | notOwner
  | roomNotJoinable
  | roomFull
  | wrongStatus
  | tooFewMembers
  | invalidLabel (label : String)
  | invalidRule (rule : String)
  | conflictingRules
  | cannotRemoveOwner
  | memberNotFound
  | hasActiveRoom
  | codeExhausted
deriving DecidableEq, Repr

/-- Outcome of a service call: result or error, post state, and the ordered
repository writes and publisher calls performed before returning. -/
abbrev OpResult (α : Type) := Except ServiceError α × ServiceState × List Action

/-- `roomRepository.findOne({ where: { roomCode } })` with relations loaded. -/
def findRoomByCode (s : ServiceState) (code : String) : Option Room :=
  s.rooms.find? (fun r => decide (r.roomCode = code))

/-- The `members` relation of a room: membership rows with its room id. -/
def roomMembers (s : ServiceState) (roomId : Nat) : List RoomMember :=
  s.members.filter (fun m => decide (m.roomId = roomId))

/-- `getRoomByCode`: the loaded room, or the `NotFound` exception. -/
def getRoomByCode (s : ServiceState) (code : String) : Except ServiceError Room :=
  match findRoomByCode s code with
  | some r => Except.ok r
  | none => Except.error ServiceError.notFound

/-- Channel name `room-<code>` used by `triggerRoomEvent`. -/
def pusherChannel (code : String) : String := "room-" ++ code

/-- `formatRoomData`: the snapshot pushed with every event. -/
def formatRoomData (room : Room) (mems : List RoomMember) : Snapshot where
  roomId := room.id
  roomCode := room.roomCode
  gameName := room.gameName
  status := room.status
  maxMembers := room.maxMembers
  ownerId := room.ownerId
  labelRules := room.labelRules
  members := mems.map (fun m => ⟨m.userId, m.nickname, m.avatarUrl, m.team, m.labels⟩)
  memberCount := mems.length
  divisionResult := room.divisionResult

/-- `PusherService.memberJoined`. -/
def memberJoinedEvent (code : String) (snap : Snapshot) : Event :=
  ⟨pusherChannel code, "member-joined", EventPayload.roomData snap⟩

/-- `PusherService.memberLeft`. -/
def memberLeftEvent (code : String) (snap : Snapshot) : Event :=
  ⟨pusherChannel code, "member-left", EventPayload.roomData snap⟩

/-- `PusherService.roomClosed`. -/
def roomClosedEvent (code : String) : Event :=
  ⟨pusherChannel code, "room-closed", EventPayload.empty⟩

/-- `PusherService.teamsDivided`. -/
def teamsDividedEvent (code : String) (snap : Snapshot) (result : DivisionResult) :
    Event :=
  ⟨pusherChannel code, "teams-divided", EventPayload.roomDataWithResult snap result⟩

/-- The events among an action list, in order. -/
def eventsOf (acts : List Action) : List Event :=
  acts.filterMap (fun a =>
    match a with
    | Action.publish e => some e
    | _ => none)

/-- The user row behind a user id (projection loaded by the relations). -/
def lookupUser (s : ServiceState) (uid : String) : UserRow :=
  (s.users.find? (fun u => decide (u.id = uid))).getD ⟨uid, "", ""⟩

/-- A fresh primary key for a membership row. -/
def freshMemberId (s : ServiceState) : Nat :=
  (s.members.map (·.id)).foldr max 0 + 1

/-- `addMember`: insert a membership with team `none` and empty labels. -/
def addMember (s : ServiceState) (roomId : Nat) (uid : String) : ServiceState :=
  { s with members := s.members ++
      [⟨freshMemberId s, roomId, uid, (lookupUser s uid).nickname,
        (lookupUser s uid).avatarUrl, Team.noTeam, []⟩] }

/-- `joinRoom`: status gate, idempotent re-join, capacity gate, insert, emit. -/
def joinRoom (s : ServiceState) (userId roomCode : String) : OpResult Room :=
  match findRoomByCode s roomCode with
  | none => (Except.error ServiceError.notFound, s, [])
  | some room =>
    if room.status ≠ RoomStatus.waiting then
      (Except.error ServiceError.roomNotJoinable, s, [])
    else if (roomMembers s room.id).any (fun m => decide (m.userId = userId)) then
      (Except.ok room, s, [])
    else if (roomMembers s room.id).length ≥ room.maxMembers then
      (Except.error ServiceError.roomFull, s, [])
    else
      match findRoomByCode (addMember s room.id userId) roomCode with
      | none => (Except.error ServiceError.notFound, addMember s room.id userId,
          [Action.insertMember room.id userId])
      | some updated =>
        (Except.ok updated, addMember s room.id userId,
         [Action.insertMember room.id userId,
          Action.publish (memberJoinedEvent roomCode
            (formatRoomData updated
              (roomMembers (addMember s room.id userId) updated.id)))])

/-- `closeAndDeleteRoom`: push `room-closed`, then delete members and room. -/
def closeAndDeleteRoom (s : ServiceState) (room : Room) : OpResult Unit :=
  (Except.ok (),
   { s with
      members := s.members.filter (fun m => decide (m.roomId ≠ room.id)),
      rooms := s.rooms.filter (fun r => decide (r.id ≠ room.id)) },
   [Action.publish (roomClosedEvent room.roomCode),
    Action.deleteMembersOfRoom room.id,
    Action.deleteRoom room.id])

/-- State after `memberRepository.delete({ roomId, userId })`. -/
def deleteMembership (s : ServiceState) (roomId : Nat) (userId : String) :
    ServiceState :=
  { s with
      members := s.members.filter
          (fun m => !(decide (m.roomId = roomId) && decide (m.userId = userId))) }

/-- `leaveRoom`: the owner closes the room, anyone else is removed and
`member-left` is emitted. -/
def leaveRoom (s : ServiceState) (userId roomCode : String) : OpResult Unit :=
  match findRoomByCode s roomCode with
  | none => (Except.error ServiceError.notFound, s, [])
  | some room =>
    if room.ownerId = userId then closeAndDeleteRoom s room
    else
      match findRoomByCode (deleteMembership s room.id userId) roomCode with
      | none => (Except.error ServiceError.notFound,
          deleteMembership s room.id userId,
          [Action.deleteMember room.id userId])
      | some updated =>
        (Except.ok (), deleteMembership s room.id userId,
         [Action.deleteMember room.id userId,
          Action.publish (memberLeftEvent roomCode
            (formatRoomData updated
              (roomMembers (deleteMembership s room.id userId) updated.id)))])

/-- `removeMember`: owner-only removal of another member. -/
def removeMember (s : ServiceState) (ownerId roomCode memberId : String) :
    OpResult Unit :=
  match findRoomByCode s roomCode with
  | none => (Except.error ServiceError.notFound, s, [])
  | some room =>
    if room.ownerId ≠ ownerId then (Except.error ServiceError.notOwner, s, [])
    else if memberId = ownerId then
      (Except.error ServiceError.cannotRemoveOwner, s, [])
    else if ¬ (roomMembers s room.id).any (fun m => decide (m.userId = memberId)) then
      (Except.error ServiceError.memberNotFound, s, [])
    else
      match findRoomByCode (deleteMembership s room.id memberId) roomCode with
      | none => (Except.error ServiceError.notFound,
          deleteMembership s room.id memberId,
          [Action.deleteMember room.id memberId])
      | some updated =>
        (Except.ok (), deleteMembership s room.id memberId,
         [Action.deleteMember room.id memberId,
          Action.publish (memberLeftEvent roomCode
            (formatRoomData updated
              (roomMembers (deleteMembership s room.id memberId) updated.id)))])

/-- `closeRoom`: owner-only close. -/
def closeRoom (s : ServiceState) (userId roomCode : String) : OpResult Unit :=
  match findRoomByCode s roomCode with
  | none => (Except.error ServiceError.notFound, s, [])
  | some room =>
    if room.ownerId ≠ userId then (Except.error ServiceError.notOwner, s, [])
    else closeAndDeleteRoom s room

/-- `generateRoomCode`: up to 10 rejection-sampling attempts from the stream of
random candidates. -/
def generateRoomCode (s : ServiceState) (candidates : List String) : Option String :=
  (candidates.take 10).find?
    (fun c => !(s.rooms.any (fun r => decide (r.roomCode = c))))

/-- A fresh primary key for a room row. -/
def freshRoomId (s : ServiceState) : Nat :=
  (s.rooms.map (·.id)).foldr max 0 + 1

/-- `createRoom`: reject an owner with an active waiting room, generate a code,
insert the room and its owner membership.  No event is emitted. -/
def createRoom (s : ServiceState) (userId gameName : String) (maxMembers : Nat)
    (candidates : List String) : OpResult Room :=
  if s.rooms.any (fun r => decide (r.ownerId = userId) &&
      decide (r.status = RoomStatus.waiting)) then
    (Except.error ServiceError.hasActiveRoom, s, [])
  else
    match generateRoomCode s candidates with
    | none => (Except.error ServiceError.codeExhausted, s, [])
    | some code =>
      match findRoomByCode
          (addMember { s with rooms := s.rooms ++
              [⟨freshRoomId s, code, gameName, userId, maxMembers,
                RoomStatus.waiting, [], none⟩] }
            (freshRoomId s) userId) code with
      | none => (Except.error ServiceError.notFound,
          addMember { s with rooms := s.rooms ++
              [⟨freshRoomId s, code, gameName, userId, maxMembers,
                RoomStatus.waiting, [], none⟩] }
            (freshRoomId s) userId,
          [Action.saveRoom (freshRoomId s), Action.insertMember (freshRoomId s) userId])
      | some created =>
        (Except.ok created,
         addMember { s with rooms := s.rooms ++
             [⟨freshRoomId s, code, gameName, userId, maxMembers,
               RoomStatus.waiting, [], none⟩] }
           (freshRoomId s) userId,
         [Action.saveRoom (freshRoomId s), Action.insertMember (freshRoomId s) userId])

/-- `getMyJoinedRoom`: looks at the user's first membership row only. -/
def getMyJoinedRoom (s : ServiceState) (userId : String) : Option Room :=
  match s.members.find? (fun m => decide (m.userId = userId)) with
  | none => none
  | some member =>
    match s.rooms.find? (fun r => decide (r.id = member.roomId)) with
    | none => none
    | some room =>
      if room.status = RoomStatus.closed ∨ room.ownerId = userId then none
      else some room

/-- The three `Math.random()` draws a division may consume. -/
structure DivisionRandom where
  pairSame : Bool
  pairToA : Bool
  targetA : Bool
deriving DecidableEq, Repr

/-- `memberRepository.update(memberId, { team })`. -/
def setTeamById (table : List RoomMember) (mid : Nat) (t : Team) : List RoomMember :=
  table.map (fun r => if r.id = mid then { r with team := t } else r)

/-- The member-team update loop of `divideTeams` over one team. -/
def setTeams (table : List RoomMember) (ms : List RoomMember) (t : Team) :
    List RoomMember :=
  ms.foldl (fun tb m => setTeamById tb m.id t) table

/-- Projection of a member into the stored `divisionResult`. -/
def toDivisionMember (m : RoomMember) : DivisionMember :=
  ⟨m.userId, m.nickname, m.avatarUrl, m.labels⟩

/-- The solver call of `divideTeams`. -/
def divideSplit (s : ServiceState) (room : Room) (rnd : DivisionRandom) : Split :=
  divideWithRules (roomMembers s room.id) room.labelRules
    rnd.pairSame rnd.pairToA rnd.targetA

/-- The `DivisionResult` value `divideTeams` stores and returns. -/
def divisionResultOf (split : Split) : DivisionResult :=
  ⟨split.1.map toDivisionMember, split.2.map toDivisionMember⟩

/-- `roomRepository.save(room)`: replace the row with the same id. -/
def saveRoomRow (s : ServiceState) (room : Room) : ServiceState :=
  { s with rooms := s.rooms.map (fun r => if r.id = room.id then room else r) }

/-- Membership table after both team-update loops of `divideTeams`. -/
def divideUpdateMembers (s : ServiceState) (split : Split) : ServiceState :=
  { s with
      members := setTeams (setTeams s.members split.1 Team.teamA) split.2
          Team.teamB }

/-- State after the member updates and the room save of `divideTeams`. -/
def dividePost (s : ServiceState) (room : Room) (split : Split) : ServiceState :=
  saveRoomRow (divideUpdateMembers s split)
    { room with
        status := RoomStatus.divided,
        divisionResult := some (divisionResultOf split) }

/-- Repository writes of `divideTeams`, in program order. -/
def divideActions (split : Split) (roomId : Nat) : List Action :=
  split.1.map (fun m => Action.updateMemberTeam m.id Team.teamA) ++
  split.2.map (fun m => Action.updateMemberTeam m.id Team.teamB) ++
  [Action.saveRoom roomId]

/-- `divideTeams`: owner and status gates, solver, member updates, room save,
`teams-divided` event. -/
def divideTeams (s : ServiceState) (userId roomCode : String)
    (rnd : DivisionRandom) : OpResult DivisionResult :=
  match findRoomByCode s roomCode with
  | none => (Except.error ServiceError.notFound, s, [])
  | some room =>
    if room.ownerId ≠ userId then (Except.error ServiceError.notOwner, s, [])
    else if room.status ≠ RoomStatus.waiting then
      (Except.error ServiceError.wrongStatus, s, [])
    else if (roomMembers s room.id).length < 2 then
      (Except.error ServiceError.tooFewMembers, s, [])
    else
      match findRoomByCode (dividePost s room (divideSplit s room rnd)) roomCode with
      | none => (Except.error ServiceError.notFound,
          dividePost s room (divideSplit s room rnd),
          divideActions (divideSplit s room rnd) room.id)
      | some updated =>
        (Except.ok (divisionResultOf (divideSplit s room rnd)),
         dividePost s room (divideSplit s room rnd),
         divideActions (divideSplit s room rnd) room.id ++
           [Action.publish (teamsDividedEvent roomCode
             (formatRoomData updated
               (roomMembers (dividePost s room (divideSplit s room rnd)) updated.id))
             (divisionResultOf (divideSplit s room rnd)))])

/-- `memberRepository.update({ roomId }, { team: NONE })`. -/
def resetTeamsState (s : ServiceState) (roomId : Nat) : ServiceState :=
  { s with
      members := s.members.map
          (fun m =>
            if m.roomId = roomId then { m with team := Team.noTeam } else m) }

/-- `redivideTeams`: reset all teams, set the room back to `waiting`, then run
`divideTeams`.  No status precondition of its own. -/
def redivideTeams (s : ServiceState) (userId roomCode : String)
    (rnd : DivisionRandom) : OpResult DivisionResult :=
  match findRoomByCode s roomCode with
  | none => (Except.error ServiceError.notFound, s, [])
  | some room =>
    if room.ownerId ≠ userId then (Except.error ServiceError.notOwner, s, [])
    else
      match divideTeams
          (saveRoomRow (resetTeamsState s room.id)
            { room with status := RoomStatus.waiting })
          userId roomCode rnd with
      | (out, s2, acts) =>
        (out, s2, Action.resetTeams room.id :: Action.saveRoom room.id :: acts)

/-- `Object.values(MemberLabel)`: the closed label vocabulary. -/
def memberLabelValues : List String := ["god", "sister", "male", "boss"]

/-- `Object.values(LabelRule)`: the valid rule strings. -/
def labelRuleValues : List String := ["none", "even", "same_team"]

/-- `memberRepository.update(memberId, { labels })`. -/
def updateLabelsById (table : List RoomMember) (mid : Nat) (labels : List String) :
    List RoomMember :=
  table.map (fun r => if r.id = mid then { r with labels := labels } else r)

/-- State after the labels update of `setMemberLabels`. -/
def setLabelsState (s : ServiceState) (mid : Nat) (labels : List String) :
    ServiceState :=
  { s with members := updateLabelsById s.members mid labels }

/-- `setMemberLabels`: owner gate, vocabulary check, member lookup, update,
then a `member-joined` push with the fresh snapshot. -/
def setMemberLabels (s : ServiceState) (userId roomCode memberId : String)
    (labels : List String) : OpResult Unit :=
  match findRoomByCode s roomCode with
  | none => (Except.error ServiceError.notFound, s, [])
  | some room =>
    if room.ownerId ≠ userId then (Except.error ServiceError.notOwner, s, [])
    else
      match labels.find? (fun l => !(memberLabelValues.contains l)) with
      | some l => (Except.error (ServiceError.invalidLabel l), s, [])
      | none =>
        match (roomMembers s room.id).find?
            (fun m => decide (m.userId = memberId)) with
        | none => (Except.error ServiceError.memberNotFound, s, [])
        | some member =>
          match findRoomByCode (setLabelsState s member.id labels) roomCode with
          | none => (Except.error ServiceError.notFound,
              setLabelsState s member.id labels,
              [Action.updateMemberLabels member.id labels])
          | some updated =>
            (Except.ok (), setLabelsState s member.id labels,
             [Action.updateMemberLabels member.id labels,
              Action.publish (memberJoinedEvent roomCode
                (formatRoomData updated
                  (roomMembers (setLabelsState s member.id labels) updated.id)))])

/-- `setLabelRules`: owner gate, rule validity, at most one `same_team`, save,
then a `member-joined` push with the fresh snapshot. -/
def setLabelRules (s : ServiceState) (userId roomCode : String)
    (labelRules : List (String × String)) : OpResult Unit :=
  match findRoomByCode s roomCode with
  | none => (Except.error ServiceError.notFound, s, [])
  | some room =>
    if room.ownerId ≠ userId then (Except.error ServiceError.notOwner, s, [])
    else
      match labelRules.find?
          (fun p => !(decide (p.2 = "")) && !(labelRuleValues.contains p.2)) with
      | some p => (Except.error (ServiceError.invalidRule p.2), s, [])
      | none =>
        if 1 < ((labelRules.filter (fun p => decide (p.2 = "same_team"))).map
            Prod.fst).length then
          (Except.error ServiceError.conflictingRules, s, [])
        else
          match findRoomByCode (saveRoomRow s { room with labelRules := labelRules })
              roomCode with
          | none => (Except.error ServiceError.notFound,
              saveRoomRow s { room with labelRules := labelRules },
              [Action.saveRoom room.id])
          | some updated =>
            (Except.ok (), saveRoomRow s { room with labelRules := labelRules },
             [Action.saveRoom room.id,
              Action.publish (memberJoinedEvent roomCode
                (formatRoomData updated
                  (roomMembers (saveRoomRow s { room with labelRules := labelRules })
                    updated.id)))])

/-! ## Service-level lemmas -/

lemma find?_replace_by_id (rooms : List Room) (room newRoom : Room) (code : String)
    (h : rooms.find? (fun r => decide (r.roomCode = code)) = some room)
    (hid : newRoom.id = room.id) (hcode : newRoom.roomCode = room.roomCode) :
    (rooms.map (fun r => if r.id = newRoom.id then newRoom else r)).find?
      (fun r => decide (r.roomCode = code)) = some newRoom := by
  have hroomcode : room.roomCode = code := by simpa using List.find?_some h
  induction rooms with
  | nil => simp at h
  | cons x t ih =>
    by_cases hx : decide (x.roomCode = code) = true
    · rw [List.find?_cons_of_pos t hx] at h
      have hxr : x = room := by simpa using h
      subst hxr
      rw [List.map_cons, if_pos (hid.symm)]
      refine List.find?_cons_of_pos _ ?_
      simp [hcode, hroomcode]
    · rw [List.find?_cons_of_neg t hx] at h
      rw [List.map_cons]
      by_cases hxid : x.id = newRoom.id
      · rw [if_pos hxid]
        refine List.find?_cons_of_pos _ ?_
        simp [hcode, hroomcode]
      · rw [if_neg hxid]
        rw [List.find?_cons_of_neg
          (List.map (fun r => if r.id = newRoom.id then newRoom else r) t) hx]
        exact ih h

lemma findRoomByCode_saveRoomRow (s : ServiceState) (room newRoom : Room)
    (code : String) (h : findRoomByCode s code = some room)
    (hid : newRoom.id = room.id) (hcode : newRoom.roomCode = room.roomCode) :
    findRoomByCode (saveRoomRow s newRoom) code = some newRoom :=
  find?_replace_by_id s.rooms room newRoom code h hid hcode

lemma roomMembers_map (s : ServiceState) (g : RoomMember → RoomMember)
    (hg : ∀ m, (g m).roomId = m.roomId) (rid : Nat) :
    roomMembers { s with members := s.members.map g } rid =
      (roomMembers s rid).map g := by
  unfold roomMembers
  simp only []
  rw [List.filter_map]
  congr 1
  apply List.filter_congr
  intro m _
  simp [Function.comp, hg]

lemma roomMembers_resetTeams (s : ServiceState) (rid rid2 : Nat) :
    (roomMembers (resetTeamsState s rid) rid2).length =
      (roomMembers s rid2).length := by
  unfold resetTeamsState
  rw [roomMembers_map]
  · rw [List.length_map]
  · intro m
    by_cases h : m.roomId = rid <;> simp [h]

/-- C6.  `joinRoom` fails with `RoomNotJoinable` exactly when the room is not
`waiting`; an existing member gets the room back idempotently with no insert
and no event; a new member is rejected with `RoomFull` exactly at capacity and
otherwise inserted with a single `member-joined` event. -/
theorem joinRoom_spec (s : ServiceState) (u code : String) (room : Room)
    (hfind : findRoomByCode s code = some room)
    (hcap : (roomMembers s room.id).length ≤ room.maxMembers) :
    ((joinRoom s u code).1 = Except.error ServiceError.roomNotJoinable ↔
      room.status ≠ RoomStatus.waiting) ∧
    (room.status = RoomStatus.waiting →
      (roomMembers s room.id).any (fun m => decide (m.userId = u)) = true →
      joinRoom s u code = (Except.ok room, s, [])) ∧
    (room.status = RoomStatus.waiting →
      (roomMembers s room.id).any (fun m => decide (m.userId = u)) = false →
      (((joinRoom s u code).1 = Except.error ServiceError.roomFull ↔
        (roomMembers s room.id).length = room.maxMembers) ∧
      ((roomMembers s room.id).length ≠ room.maxMembers →
        joinRoom s u code =
          (Except.ok room, addMember s room.id u,
           [Action.insertMember room.id u,
            Action.publish (memberJoinedEvent code
              (formatRoomData room (roomMembers (addMember s room.id u) room.id)))])))) := by
  have hrefetch : findRoomByCode (addMember s room.id u) code =
      findRoomByCode s code := rfl
  by_cases hst : room.status = RoomStatus.waiting
  · have hns : ¬ (room.status ≠ RoomStatus.waiting) := by simp [hst]
    have hjmem : (roomMembers s room.id).any (fun m => decide (m.userId = u)) = true →
        joinRoom s u code = (Except.ok room, s, []) := by
      intro hmem
      simp only [joinRoom, hfind]
      rw [if_neg hns, if_pos hmem]
    have hjfull : ¬ ((roomMembers s room.id).any (fun m => decide (m.userId = u)) = true) →
        (roomMembers s room.id).length ≥ room.maxMembers →
        joinRoom s u code = (Except.error ServiceError.roomFull, s, []) := by
      intro hmem hfull
      simp only [joinRoom, hfind]
      rw [if_neg hns, if_neg hmem, if_pos hfull]
    have hjok : ¬ ((roomMembers s room.id).any (fun m => decide (m.userId = u)) = true) →
        ¬ ((roomMembers s room.id).length ≥ room.maxMembers) →
        joinRoom s u code =
          (Except.ok room, addMember s room.id u,
           [Action.insertMember room.id u,
            Action.publish (memberJoinedEvent code
              (formatRoomData room (roomMembers (addMember s room.id u) room.id)))]) := by
      intro hmem hfull
      simp only [joinRoom, hfind]
      rw [if_neg hns, if_neg hmem, if_neg hfull, hrefetch, hfind]
    refine ⟨?_, ?_, ?_⟩
    · constructor
      · intro herr
        exfalso
        by_cases hmem : (roomMembers s room.id).any (fun m => decide (m.userId = u)) = true
        · rw [hjmem hmem] at herr
          simp at herr
        · by_cases hfull : (roomMembers s room.id).length ≥ room.maxMembers
          · rw [hjfull hmem hfull] at herr
            simp at herr
          · rw [hjok hmem hfull] at herr
            simp at herr
      · intro hne
        exact absurd hst hne
    · intro _ hmem
      exact hjmem hmem
    · intro _ hmemf
      have hmem : ¬ ((roomMembers s room.id).any
          (fun m => decide (m.userId = u)) = true) := by simp [hmemf]
      constructor
      · constructor
        · intro herr
          by_cases hfull : (roomMembers s room.id).length ≥ room.maxMembers
          · omega
          · exfalso
            rw [hjok hmem hfull] at herr
            simp at herr
        · intro heq
          rw [hjfull hmem (by omega)]
      · intro hlt
        exact hjok hmem (by omega)
  · have hne : room.status ≠ RoomStatus.waiting := hst
    have hj : joinRoom s u code = (Except.error ServiceError.roomNotJoinable, s, []) := by
      simp only [joinRoom, hfind]
      rw [if_pos hne]
    refine ⟨?_, ?_, ?_⟩
    · rw [hj]
      simp [hne]
    · intro hw
      exact absurd hw hst
    · intro hw
      exact absurd hw hst

/-- C7.  When the owner leaves, the room is closed: exactly one `room-closed`
event, published before the two deletions, both deletions happen, and a
subsequent `getRoomByCode` fails with `NotFound`. -/
theorem leaveRoom_owner_closes (s : ServiceState) (u code : String) (room : Room)
    (hfind : findRoomByCode s code = some room)
    (howner : room.ownerId = u)
    (hcodes : (s.rooms.map (·.roomCode)).Nodup) :
    leaveRoom s u code =
      (Except.ok (),
       { s with
          members := s.members.filter (fun m => decide (m.roomId ≠ room.id)),
          rooms := s.rooms.filter (fun r => decide (r.id ≠ room.id)) },
       [Action.publish (roomClosedEvent room.roomCode),
        Action.deleteMembersOfRoom room.id,
        Action.deleteRoom room.id]) ∧
    eventsOf (leaveRoom s u code).2.2 = [roomClosedEvent room.roomCode] ∧
    getRoomByCode (leaveRoom s u code).2.1 code =
      Except.error ServiceError.notFound := by
  have hroomcode : room.roomCode = code := by
    have := List.find?_some hfind
    simpa using this
  have hmain : leaveRoom s u code =
      (Except.ok (),
       { s with
          members := s.members.filter (fun m => decide (m.roomId ≠ room.id)),
          rooms := s.rooms.filter (fun r => decide (r.id ≠ room.id)) },
       [Action.publish (roomClosedEvent room.roomCode),
        Action.deleteMembersOfRoom room.id,
        Action.deleteRoom room.id]) := by
    simp only [leaveRoom, hfind, if_pos howner, closeAndDeleteRoom]
  refine ⟨hmain, ?_, ?_⟩
  · rw [hmain]
    rfl
  · rw [hmain]
    simp only [getRoomByCode, findRoomByCode]
    have hnone : (s.rooms.filter (fun r => decide (r.id ≠ room.id))).find?
        (fun r => decide (r.roomCode = code)) = none := by
      rw [List.find?_eq_none]
      intro r hr
      obtain ⟨hrmem, hrid⟩ := List.mem_filter.mp hr
      simp only [decide_eq_true_eq] at hrid
      intro hrc
      simp only [decide_eq_true_eq] at hrc
      have hmem_room : room ∈ s.rooms := List.mem_of_find?_eq_some hfind
      have : r = room := List.inj_on_of_nodup_map hcodes hrmem hmem_room
        (by rw [hrc, hroomcode])
      exact hrid (by rw [this])
    rw [hnone]

/-- C9 counterexample state: the caller's first membership row points at a room
they own, while a later membership points at a joinable room. -/
def exC9 : ServiceState :=
  { users := [⟨"u", "U", ""⟩, ⟨"v", "V", ""⟩],
    rooms := [⟨1, "111111", "g", "u", 10, RoomStatus.waiting, [], none⟩,
              ⟨2, "222222", "g", "v", 10, RoomStatus.waiting, [], none⟩],
    members := [⟨1, 1, "u", "U", "", Team.noTeam, []⟩,
                ⟨2, 2, "u", "U", "", Team.noTeam, []⟩] }

/-- C9 (counterexample).  `getMyJoinedRoom` returns null although a non-closed
room the user belongs to and does not own exists: the claim "returns null
exactly when no such room exists" fails on the code. -/
theorem getMyJoinedRoom_not_exhaustive :
    getMyJoinedRoom exC9 "u" = none ∧
    ∃ r ∈ exC9.rooms, r.status ≠ RoomStatus.closed ∧ r.ownerId ≠ "u" ∧
      ∃ m ∈ exC9.members, m.userId = "u" ∧ m.roomId = r.id := by
  constructor
  · rfl
  · refine ⟨⟨2, "222222", "g", "v", 10, RoomStatus.waiting, [], none⟩,
      (by simp [exC9]), (by simp), (by simp), ?_⟩
    exact ⟨⟨2, 2, "u", "U", "", Team.noTeam, []⟩, (by simp [exC9]), rfl, rfl⟩

/-- C9 (amended).  `getMyJoinedRoom` inspects only the caller's first
membership row: any room it returns is a non-closed, non-owned room the caller
belongs to, but it returns null whenever the first membership's room is closed
or owned, even if a later membership's room qualifies. -/
theorem getMyJoinedRoom_first_membership (s : ServiceState) (u : String) :
    (∀ r, getMyJoinedRoom s u = some r →
      r ∈ s.rooms ∧ r.status ≠ RoomStatus.closed ∧ r.ownerId ≠ u ∧
      ∃ m ∈ s.members, m.userId = u ∧ m.roomId = r.id) ∧
    (∀ m, s.members.find? (fun m => decide (m.userId = u)) = some m →
      ∀ r, s.rooms.find? (fun r => decide (r.id = m.roomId)) = some r →
      (r.status = RoomStatus.closed ∨ r.ownerId = u) →
      getMyJoinedRoom s u = none) := by
  constructor
  · intro r hr
    unfold getMyJoinedRoom at hr
    rcases hm : s.members.find? (fun m => decide (m.userId = u)) with _ | m
    · rw [hm] at hr; cases hr
    · simp only [hm] at hr
      rcases hrm : s.rooms.find? (fun r => decide (r.id = m.roomId)) with _ | r0
      · rw [hrm] at hr; cases hr
      · simp only [hrm] at hr
        by_cases hcl : r0.status = RoomStatus.closed ∨ r0.ownerId = u
        · rw [if_pos hcl] at hr; cases hr
        · rw [if_neg hcl] at hr
          have hr0 : r0 = r := by simpa using hr
          subst hr0
          push_neg at hcl
          refine ⟨List.mem_of_find?_eq_some hrm, hcl.1, hcl.2, m,
            List.mem_of_find?_eq_some hm, ?_, ?_⟩
          · simpa using List.find?_some hm
          · have := List.find?_some hrm
            simp only [decide_eq_true_eq] at this
            exact this.symm
  · intro m hm r hrm hbad
    unfold getMyJoinedRoom
    simp only [hm, hrm]
    rw [if_pos hbad]

/-- C10.  `redivideTeams` has no status precondition: it resets teams and sets
the room to `waiting` before invoking `divideTeams`, so `WrongStatus` can never
occur; the only possible errors are `NotFound`, `NotOwner`, `TooFewMembers`. -/
theorem redivideTeams_no_wrongStatus (s : ServiceState) (u code : String)
    (rnd : DivisionRandom) :
    match (redivideTeams s u code rnd).1 with
    | Except.error e => e = ServiceError.notFound ∨ e = ServiceError.notOwner ∨
        e = ServiceError.tooFewMembers
    | Except.ok _ => True := by
  unfold redivideTeams
  rcases hfind : findRoomByCode s code with _ | room
  · simp
  · simp only []
    by_cases howner : room.ownerId ≠ u
    · rw [if_pos howner]
      simp
    · rw [if_neg howner]
      push_neg at howner
      set s1 := saveRoomRow (resetTeamsState s room.id)
        { room with status := RoomStatus.waiting } with hs1
      have hfind1 : findRoomByCode s1 code =
          some { room with status := RoomStatus.waiting } := by
        rw [hs1]
        refine findRoomByCode_saveRoomRow (resetTeamsState s room.id) room
          { room with status := RoomStatus.waiting } code ?_ rfl rfl
        exact hfind
      by_cases hfew : (roomMembers s1 room.id).length < 2
      · have : divideTeams s1 u code rnd =
            (Except.error ServiceError.tooFewMembers, s1, []) := by
          simp only [divideTeams, hfind1]
          rw [if_neg (by simp [howner]), if_neg (by simp), if_pos hfew]
        rw [this]
        simp
      · set room1 := { room with status := RoomStatus.waiting } with hroom1
        set split := divideSplit s1 room1 rnd with hsplit
        set room2 :=
          { room1 with status := RoomStatus.divided, divisionResult := some (divisionResultOf split) }
          with hroom2
        have hfind2 : findRoomByCode (dividePost s1 room1 split) code =
            some room2 := by
          refine findRoomByCode_saveRoomRow (divideUpdateMembers s1 split) room1
            room2 code ?_ rfl rfl
          exact hfind1
        have hdd : divideTeams s1 u code rnd =
            (Except.ok (divisionResultOf split),
             dividePost s1 room1 split,
             divideActions split room1.id ++
               [Action.publish (teamsDividedEvent code
                 (formatRoomData room2
                   (roomMembers (dividePost s1 room1 split) room2.id))
                 (divisionResultOf split))]) := by
          simp only [divideTeams, hfind1]
          rw [if_neg (by simp [howner]), if_neg (by simp), if_neg hfew, hfind2]
        rw [hdd]
        simp

/-! ## `divideTeams` produces a partition (claim C3) -/

lemma setTeams_eq_map (ms : List RoomMember) (t : Team) :
    ∀ table : List RoomMember, setTeams table ms t =
      table.map (fun r => if r.id ∈ ms.map (·.id) then { r with team := t } else r) := by
  induction ms with
  | nil =>
    intro table
    unfold setTeams
    simp
  | cons m ms ih =>
    intro table
    unfold setTeams at ih ⊢
    rw [List.foldl_cons]
    rw [ih (setTeamById table m.id t)]
    unfold setTeamById
    rw [List.map_map]
    apply List.map_congr_left
    intro r _
    by_cases h1 : r.id = m.id <;> by_cases h2 : r.id ∈ ms.map (·.id) <;>
      simp [Function.comp, h1, h2]

lemma divideUpdateMembers_eq (s : ServiceState) (split : Split) :
    (divideUpdateMembers s split).members = s.members.map (fun r =>
      if r.id ∈ split.2.map (·.id) then { r with team := Team.teamB }
      else if r.id ∈ split.1.map (·.id) then { r with team := Team.teamA }
      else r) := by
  unfold divideUpdateMembers
  simp only []
  rw [setTeams_eq_map split.1 Team.teamA s.members,
    setTeams_eq_map split.2 Team.teamB _, List.map_map]
  apply List.map_congr_left
  intro r _
  by_cases h1 : r.id ∈ split.1.map (·.id) <;> by_cases h2 : r.id ∈ split.2.map (·.id) <;>
    simp [Function.comp, h1, h2]

lemma roomMembers_dividePost (s : ServiceState) (room : Room) (split : Split)
    (rid : Nat) :
    roomMembers (dividePost s room split) rid =
      (roomMembers s rid).map (fun r =>
        if r.id ∈ split.2.map (·.id) then { r with team := Team.teamB }
        else if r.id ∈ split.1.map (·.id) then { r with team := Team.teamA }
        else r) := by
  have h1 : roomMembers (dividePost s room split) rid =
      roomMembers { s with members := (divideUpdateMembers s split).members } rid := rfl
  rw [h1, divideUpdateMembers_eq]
  apply roomMembers_map
  intro m
  by_cases h1 : m.id ∈ split.1.map (·.id) <;> by_cases h2 : m.id ∈ split.2.map (·.id) <;>
    simp [h1, h2]

lemma roomMembers_ids_nodup (s : ServiceState) (rid : Nat)
    (hids : (s.members.map (·.id)).Nodup) :
    ((roomMembers s rid).map (·.id)).Nodup := by
  refine List.Nodup.sublist ?_ hids
  exact (List.filter_sublist s.members).map (·.id)

/-- C3.  After a successful `divideTeams`, the room is `divided`, its stored
`divisionResult` is the returned result and lists each member exactly once
(`teamA.length + teamB.length` equals the member count, and the listed user
ids are a permutation of the room's membership user ids), and every membership
of the room has team `team_a` or `team_b`: the division algorithm's output is
a partition of its input member list. -/
theorem divideTeams_partitions (s : ServiceState) (u code : String)
    (rnd : DivisionRandom) (res : DivisionResult) (s' : ServiceState)
    (acts : List Action)
    (hids : (s.members.map (·.id)).Nodup)
    (h : divideTeams s u code rnd = (Except.ok res, s', acts)) :
    ∃ room', findRoomByCode s' code = some room' ∧
      room'.status = RoomStatus.divided ∧
      room'.divisionResult = some res ∧
      res.teamA.length + res.teamB.length = (roomMembers s' room'.id).length ∧
      List.Perm ((res.teamA ++ res.teamB).map (fun dm => dm.userId))
        ((roomMembers s' room'.id).map (fun m => m.userId)) ∧
      ∀ m ∈ roomMembers s' room'.id, m.team = Team.teamA ∨ m.team = Team.teamB := by
  rcases hfind : findRoomByCode s code with _ | room
  · simp only [divideTeams, hfind] at h
    simp at h
  · simp only [divideTeams, hfind] at h
    by_cases howner : room.ownerId ≠ u
    · rw [if_pos howner] at h
      simp at h
    · rw [if_neg howner] at h
      by_cases hstat : room.status ≠ RoomStatus.waiting
      · rw [if_pos hstat] at h
        simp at h
      · rw [if_neg hstat] at h
        by_cases hfew : (roomMembers s room.id).length < 2
        · rw [if_pos hfew] at h
          simp at h
        · rw [if_neg hfew] at h
          set split := divideSplit s room rnd with hsplit
          set room2 : Room :=
            { room with status := RoomStatus.divided, divisionResult := some (divisionResultOf split) }
            with hroom2
          have hfindDU : findRoomByCode (divideUpdateMembers s split) code =
              some room := hfind
          have hfind2 : findRoomByCode (dividePost s room split) code =
              some room2 :=
            findRoomByCode_saveRoomRow (divideUpdateMembers s split) room room2
              code hfindDU rfl rfl
          rw [hfind2] at h
          have hres : divisionResultOf split = res := by
            have := congrArg Prod.fst h
            simpa using this
          have hs' : dividePost s room split = s' := by
            have := congrArg (fun p : OpResult DivisionResult => p.2.1) h
            simpa using this
          refine ⟨room2, ?_, rfl, ?_, ?_, ?_, ?_⟩
          · rw [← hs']
            exact hfind2
          · rw [hroom2, ← hres]
          · rw [← hs', ← hres]
            have hRM : roomMembers (dividePost s room split) room2.id =
                (roomMembers s room.id).map (fun r =>
                  if r.id ∈ split.2.map (·.id) then { r with team := Team.teamB }
                  else if r.id ∈ split.1.map (·.id) then { r with team := Team.teamA }
                  else r) := roomMembers_dividePost s room split room.id
            rw [hRM, List.length_map]
            have hperm : List.Perm (split.1 ++ split.2) (roomMembers s room.id) :=
              divideWithRules_perm (roomMembers s room.id) room.labelRules
                rnd.pairSame rnd.pairToA rnd.targetA
                (roomMembers_ids_nodup s room.id hids)
            have hlen := hperm.length_eq
            rw [List.length_append] at hlen
            simp only [divisionResultOf, List.length_map]
            exact hlen
          · rw [← hs', ← hres]
            have hRM : roomMembers (dividePost s room split) room2.id =
                (roomMembers s room.id).map (fun r =>
                  if r.id ∈ split.2.map (·.id) then { r with team := Team.teamB }
                  else if r.id ∈ split.1.map (·.id) then { r with team := Team.teamA }
                  else r) := roomMembers_dividePost s room split room.id
            rw [hRM]
            have hperm : List.Perm (split.1 ++ split.2) (roomMembers s room.id) :=
              divideWithRules_perm (roomMembers s room.id) room.labelRules
                rnd.pairSame rnd.pairToA rnd.targetA
                (roomMembers_ids_nodup s room.id hids)
            have hL : ((divisionResultOf split).teamA ++
                (divisionResultOf split).teamB).map (fun dm => dm.userId) =
                (split.1 ++ split.2).map (fun m => m.userId) := by
              simp only [divisionResultOf, List.map_append, List.map_map]
              rfl
            rw [hL]
            have hR : ((roomMembers s room.id).map (fun r =>
                if r.id ∈ split.2.map (·.id) then { r with team := Team.teamB }
                else if r.id ∈ split.1.map (·.id) then { r with team := Team.teamA }
                else r)).map (fun m => m.userId) =
                (roomMembers s room.id).map (fun m => m.userId) := by
              rw [List.map_map]
              apply List.map_congr_left
              intro r _
              by_cases h1 : r.id ∈ split.1.map (·.id) <;>
                by_cases h2 : r.id ∈ split.2.map (·.id) <;>
                simp [Function.comp, h1, h2]
            rw [hR]
            exact hperm.map (fun m => m.userId)
          · rw [← hs']
            have hRM : roomMembers (dividePost s room split) room2.id =
                (roomMembers s room.id).map (fun r =>
                  if r.id ∈ split.2.map (·.id) then { r with team := Team.teamB }
                  else if r.id ∈ split.1.map (·.id) then { r with team := Team.teamA }
                  else r) := roomMembers_dividePost s room split room.id
            rw [hRM]
            intro m' hm'
            obtain ⟨r, hr, hFr⟩ := List.mem_map.mp hm'
            have hperm : List.Perm (split.1 ++ split.2) (roomMembers s room.id) :=
              divideWithRules_perm (roomMembers s room.id) room.labelRules
                rnd.pairSame rnd.pairToA rnd.targetA
                (roomMembers_ids_nodup s room.id hids)
            have hrsplit : r ∈ split.1 ++ split.2 := hperm.mem_iff.mpr hr
            by_cases h2 : r.id ∈ split.2.map (·.id)
            · right
              rw [← hFr]
              simp [h2]
            · left
              have h1 : r.id ∈ split.1.map (·.id) := by
                rcases List.mem_append.mp hrsplit with hra | hrb
                · exact List.mem_map_of_mem (·.id) hra
                · exact absurd (List.mem_map_of_mem (·.id) hrb) h2
              rw [← hFr]
              simp [h1, h2]

/-! ## Events of label mutations (claim C4) -/

/-- A one-room state: owner `o` alone in waiting room `123456`. -/
def exC4 : ServiceState :=
  { users := [⟨"o", "O", ""⟩],
    rooms := [⟨1, "123456", "g", "o", 10, RoomStatus.waiting, [], none⟩],
    members := [⟨1, 1, "o", "O", "", Team.noTeam, []⟩] }

/-- C4 (counterexample).  A successful owner `setMemberLabels` call publishes
exactly one event, and it is named `member-joined`, not `room-updated`; the
same holds for `setLabelRules`.  The claim that a `room-updated` event is
published fails on the code. -/
theorem setMemberLabels_publishes_no_room_updated :
    (setMemberLabels exC4 "o" "123456" "o" ["god"]).1 = Except.ok () ∧
    (eventsOf (setMemberLabels exC4 "o" "123456" "o" ["god"]).2.2).map
      (fun e => e.name) = ["member-joined"] ∧
    (setLabelRules exC4 "o" "123456" [("god", "even")]).1 = Except.ok () ∧
    (eventsOf (setLabelRules exC4 "o" "123456" [("god", "even")]).2.2).map
      (fun e => e.name) = ["member-joined"] ∧
    ∀ e ∈ eventsOf (setMemberLabels exC4 "o" "123456" "o" ["god"]).2.2 ++
        eventsOf (setLabelRules exC4 "o" "123456" [("god", "even")]).2.2,
      e.name ≠ "room-updated" := by
  refine ⟨rfl, rfl, rfl, rfl, ?_⟩
  decide

/-- C4 (amended).  A validated owner `SetMemberLabels` or `SetLabelRules` call
persists the change and then publishes a single `member-joined` event (the
source's stand-in for a room-update notification) on the room's channel,
carrying the post-update room snapshot. -/
theorem setLabels_and_rules_publish_member_joined (s : ServiceState)
    (u code memberId : String) (labels : List String)
    (rules : List (String × String)) (room : Room)
    (hfind : findRoomByCode s code = some room)
    (howner : room.ownerId = u) :
    (labels.all (fun l => memberLabelValues.contains l) = true →
      ∀ member, (roomMembers s room.id).find?
          (fun m => decide (m.userId = memberId)) = some member →
        setMemberLabels s u code memberId labels =
          (Except.ok (), setLabelsState s member.id labels,
           [Action.updateMemberLabels member.id labels,
            Action.publish (memberJoinedEvent code
              (formatRoomData room
                (roomMembers (setLabelsState s member.id labels) room.id)))])) ∧
    ((∀ p ∈ rules, p.2 = "" ∨ p.2 ∈ labelRuleValues) →
      (rules.filter (fun p => decide (p.2 = "same_team"))).length ≤ 1 →
      setLabelRules s u code rules =
        (Except.ok (), saveRoomRow s { room with labelRules := rules },
         [Action.saveRoom room.id,
          Action.publish (memberJoinedEvent code
            (formatRoomData { room with labelRules := rules }
              (roomMembers (saveRoomRow s { room with labelRules := rules })
                room.id)))])) := by
  have hno : ¬ (room.ownerId ≠ u) := by simp [howner]
  constructor
  · intro hvalid member hmember
    have hlabfind : labels.find? (fun l => !(memberLabelValues.contains l)) = none := by
      rw [List.find?_eq_none]
      intro l hl
      simpa using List.all_eq_true.mp hvalid l hl
    have hrefetch : findRoomByCode (setLabelsState s member.id labels) code =
        findRoomByCode s code := rfl
    simp only [setMemberLabels, hfind]
    rw [if_neg hno]
    simp only [hlabfind, hmember, hrefetch, hfind]
  · intro hvalid hconf
    have hrulefind : rules.find?
        (fun p => !(decide (p.2 = "")) && !(labelRuleValues.contains p.2)) = none := by
      rw [List.find?_eq_none]
      intro p hp
      rcases hvalid p hp with h | h
      · simp [h]
      · simp only [labelRuleValues, List.mem_cons, List.mem_singleton,
          List.not_mem_nil, or_false] at h
        rcases h with h | h | h <;> simp [h, labelRuleValues]
    have hnoconf : ¬ (1 < ((rules.filter (fun p => decide (p.2 = "same_team"))).map
        Prod.fst).length) := by
      rw [List.length_map]
      omega
    have hrefetch : findRoomByCode (saveRoomRow s { room with labelRules := rules })
        code = some { room with labelRules := rules } :=
      findRoomByCode_saveRoomRow s room { room with labelRules := rules } code
        hfind rfl rfl
    simp only [setLabelRules, hfind]
    rw [if_neg hno]
    simp only [hrulefind]
    rw [if_neg hnoconf]
    simp only [hrefetch]

/-! ## Publish-after-write discipline (claim C8) -/

/-- Publisher calls among the actions. -/
def isPublish : Action → Bool
  | Action.publish _ => true
  | _ => false

/-- Every publish occurs after every repository write: once a publish is seen,
only publishes follow.  A transaction that fails mid-way therefore cannot have
been preceded by a publication. -/
def publishesLast (acts : List Action) : Bool :=
  (acts.dropWhile (fun a => !(isPublish a))).all isPublish

lemma publishesLast_no_publish (acts : List Action)
    (h : ∀ a ∈ acts, isPublish a = false) : publishesLast acts = true := by
  unfold publishesLast
  induction acts with
  | nil => rfl
  | cons a acts ih =>
    rw [List.dropWhile_cons]
    have ha : isPublish a = false := h a (List.mem_cons_self a acts)
    rw [if_pos (by simp [ha])]
    exact ih (fun a' ha' => h a' (List.mem_cons_of_mem a ha'))

lemma publishesLast_writes_append (pre : List Action) (e : Event)
    (hpre : ∀ a ∈ pre, isPublish a = false) :
    publishesLast (pre ++ [Action.publish e]) = true := by
  unfold publishesLast
  induction pre with
  | nil => rfl
  | cons a pre ih =>
    rw [List.cons_append, List.dropWhile_cons]
    have ha : isPublish a = false := hpre a (List.mem_cons_self a pre)
    rw [if_pos (by simp [ha])]
    exact ih (fun a' ha' => hpre a' (List.mem_cons_of_mem a ha'))

lemma publishesLast_cons_write (a : Action) (l : List Action)
    (ha : isPublish a = false) (hl : publishesLast l = true) :
    publishesLast (a :: l) = true := by
  unfold publishesLast at hl ⊢
  rw [List.dropWhile_cons, if_pos (by simp [ha])]
  exact hl

lemma divideActions_no_publish (split : Split) (rid : Nat) :
    ∀ a ∈ divideActions split rid, isPublish a = false := by
  intro a ha
  unfold divideActions at ha
  rcases List.mem_append.mp ha with h | h
  · rcases List.mem_append.mp h with h | h
    · obtain ⟨m, _, hm⟩ := List.mem_map.mp h
      rw [← hm]
      rfl
    · obtain ⟨m, _, hm⟩ := List.mem_map.mp h
      rw [← hm]
      rfl
  · rw [List.mem_singleton.mp h]
    rfl

lemma divideTeams_publishesLast (s : ServiceState) (u code : String)
    (rnd : DivisionRandom) : publishesLast (divideTeams s u code rnd).2.2 = true := by
  unfold divideTeams
  split
  · rfl
  · split
    · rfl
    · split
      · rfl
      · split
        · rfl
        · split
          · exact publishesLast_no_publish _ (divideActions_no_publish _ _)
          · exact publishesLast_writes_append _ _ (divideActions_no_publish _ _)

/-- C8 (counterexample).  `closeRoom` (reached also by the owner's
`leaveRoom`) publishes `room-closed` before its deletions run: its action
trace starts with a publish followed by repository writes, so a failing
deletion would already have been preceded by a publication.  The claim that
publication only ever happens after the state change committed fails on the
code. -/
theorem closeRoom_publishes_before_writes :
    (closeRoom exC4 "o" "123456").1 = Except.ok () ∧
    publishesLast (closeRoom exC4 "o" "123456").2.2 = false ∧
    publishesLast (leaveRoom exC4 "o" "123456").2.2 = false := by
  exact ⟨rfl, rfl, rfl⟩

/-- C8 (amended).  For every Room Service mutation except `CloseRoom` and an
owner's `LeaveRoom`, every publisher call comes after every repository write
of the call, so a failed state change cannot have been preceded by an event;
the close path instead publishes `room-closed` first and then performs its two
deletions. -/
theorem mutations_publish_after_writes (s : ServiceState)
    (u code mid gname : String) (maxM : Nat) (cands : List String)
    (labels : List String) (rules : List (String × String))
    (rnd : DivisionRandom) :
    publishesLast (createRoom s u gname maxM cands).2.2 = true ∧
    publishesLast (joinRoom s u code).2.2 = true ∧
    ((∀ room, findRoomByCode s code = some room → room.ownerId ≠ u) →
      publishesLast (leaveRoom s u code).2.2 = true) ∧
    publishesLast (removeMember s u code mid).2.2 = true ∧
    publishesLast (divideTeams s u code rnd).2.2 = true ∧
    publishesLast (redivideTeams s u code rnd).2.2 = true ∧
    publishesLast (setMemberLabels s u code mid labels).2.2 = true ∧
    publishesLast (setLabelRules s u code rules).2.2 = true ∧
    (∀ room, findRoomByCode s code = some room → room.ownerId = u →
      (closeRoom s u code).2.2 =
        [Action.publish (roomClosedEvent room.roomCode),
         Action.deleteMembersOfRoom room.id, Action.deleteRoom room.id]) := by
  refine ⟨?_, ?_, ?_, ?_, divideTeams_publishesLast s u code rnd, ?_, ?_, ?_, ?_⟩
  · unfold createRoom
    split
    · rfl
    · split
      · rfl
      · split <;> rfl
  · unfold joinRoom
    split
    · rfl
    · split
      · rfl
      · split
        · rfl
        · split
          · rfl
          · split <;> rfl
  · intro hnotowner
    unfold leaveRoom
    rcases hfind : findRoomByCode s code with _ | room
    · simp only [hfind]
      rfl
    · simp only [hfind]
      rw [if_neg (hnotowner room hfind)]
      split <;> rfl
  · unfold removeMember
    split
    · rfl
    · split
      · rfl
      · split
        · rfl
        · split
          · rfl
          · split <;> rfl
  · unfold redivideTeams
    rcases hfind : findRoomByCode s code with _ | room
    · simp only [hfind]
      rfl
    · simp only [hfind]
      by_cases h1 : room.ownerId ≠ u
      · rw [if_pos h1]; rfl
      · rw [if_neg h1]
        rcases hdt : divideTeams
            (saveRoomRow (resetTeamsState s room.id)
              { room with status := RoomStatus.waiting }) u code rnd
          with ⟨out, s2, acts⟩
        simp only [hdt]
        have hacts : publishesLast acts = true := by
          have := divideTeams_publishesLast
            (saveRoomRow (resetTeamsState s room.id)
              { room with status := RoomStatus.waiting }) u code rnd
          rw [hdt] at this
          exact this
        exact publishesLast_cons_write _ _ rfl
          (publishesLast_cons_write _ _ rfl hacts)
  · unfold setMemberLabels
    split
    · rfl
    · split
      · rfl
      · split
        · rfl
        · split
          · rfl
          · split <;> rfl
  · unfold setLabelRules
    split
    · rfl
    · split
      · rfl
      · split
        · rfl
        · split
          · rfl
          · split <;> rfl
  · intro room hfind howner
    simp only [closeRoom, hfind]
    rw [if_neg (by simp [howner])]
    rfl

/-! ## Team size balance (claim C5) -/

lemma calculateScore_nil (tA tB : List RoomMember) :
    calculateScore tA tB [] = 3 * Nat.dist tA.length tB.length := by
  simp [calculateScore]

lemma length_filter_range_lt (n k : Nat) :
    ((List.range n).filter (fun i => decide (i < k))).length = min k n := by
  induction n with
  | zero => simp
  | succ n ih =>
    rw [List.range_succ, List.filter_append, List.length_append, ih]
    by_cases h : n < k
    · have h1 : (List.filter (fun i => decide (i < k)) [n]).length = 1 := by simp [h]
      rw [h1]
      omega
    · have h1 : (List.filter (fun i => decide (i < k)) [n]).length = 0 := by simp [h]
      rw [h1]
      omega

lemma length_filter_enum_lt (members : List RoomMember) (k : Nat) :
    (members.enum.filter (fun p => decide (p.1 < k))).length = min k members.length := by
  have h3 : ((members.enum.map Prod.fst).filter (fun i => decide (i < k))) =
      (members.enum.filter ((fun i => decide (i < k)) ∘ Prod.fst)).map Prod.fst := by
    rw [List.filter_map]
  have hpred : members.enum.filter ((fun i => decide (i < k)) ∘ Prod.fst) =
      members.enum.filter (fun p => decide (p.1 < k)) :=
    List.filter_congr (fun a _ => rfl)
  rw [hpred] at h3
  rw [List.enum_map_fst] at h3
  have h4 := congrArg List.length h3
  rw [List.length_map, length_filter_range_lt] at h4
  exact h4.symm

lemma maskAssign_lengths (members : List RoomMember) (prot : Option Split) (k : Nat)
    (hk : k ≤ members.length) :
    (maskAssign members prot (2 ^ k - 1)).1.length = (protFst prot).length + k ∧
    (maskAssign members prot (2 ^ k - 1)).2.length =
      (protSnd prot).length + (members.length - k) := by
  unfold maskAssign
  have hcongr : members.enum.filter (fun p => (2 ^ k - 1).testBit p.1) =
      members.enum.filter (fun p => decide (p.1 < k)) :=
    List.filter_congr (fun a _ => by simp [Nat.testBit_two_pow_sub_one])
  have hlen1 : (members.enum.filter (fun p => (2 ^ k - 1).testBit p.1)).length = k := by
    rw [hcongr, length_filter_enum_lt]
    omega
  have hsum := (List.filter_append_perm
      (fun p => (2 ^ k - 1).testBit p.1) members.enum).length_eq
  rw [List.length_append, List.enum_length] at hsum
  constructor
  · simp only [List.length_append, List.length_map, hlen1]
  · simp only [List.length_append, List.length_map]
    omega

lemma exists_balanced_k (pa pb r : Nat) (h : Nat.dist pa pb ≤ r + 1) :
    ∃ k, k ≤ r ∧ Nat.dist (pa + k) (pb + (r - k)) ≤ 1 := by
  induction r generalizing pa pb with
  | zero =>
    refine ⟨0, le_refl 0, ?_⟩
    simpa using h
  | succ r ih =>
    by_cases hab : pa ≤ pb
    · have h' : Nat.dist (pa + 1) pb ≤ r + 1 := by
        simp only [Nat.dist] at h ⊢
        omega
      obtain ⟨k, hk, hd⟩ := ih (pa + 1) pb h'
      refine ⟨k + 1, by omega, ?_⟩
      have e1 : pa + (k + 1) = pa + 1 + k := by omega
      have e2 : r + 1 - (k + 1) = r - k := by omega
      rw [e1, e2]
      exact hd
    · have h' : Nat.dist pa (pb + 1) ≤ r + 1 := by
        simp only [Nat.dist] at h ⊢
        omega
      obtain ⟨k, hk, hd⟩ := ih pa (pb + 1) h'
      refine ⟨k, by omega, ?_⟩
      have e2 : pb + (r + 1 - k) = pb + 1 + (r - k) := by omega
      rw [e2]
      exact hd

/-- With no `even` labels and no `same_team` constraint, the exact solver
returns teams whose sizes differ by at most one, as long as the protected
pre-assignment is not already too lopsided for the free members to repair. -/
lemma solveWithCSP_nil_balanced (members : List RoomMember) (prot : Option Split)
    (hbal : Nat.dist (protFst prot).length (protSnd prot).length ≤
      members.length + 1) :
    Nat.dist (solveWithCSP members [] none prot).1.length
      (solveWithCSP members [] none prot).2.length ≤ 1 := by
  have hprot : violatesSameTeam none (protFst prot) (protSnd prot) = false := rfl
  obtain ⟨mstar, hmstar, hfeasstar, heq, hmin, _⟩ :=
    solveWithCSP_spec members [] none prot hprot
  obtain ⟨k, hk, hd⟩ := exists_balanced_k (protFst prot).length
    (protSnd prot).length members.length hbal
  have hmlt : 2 ^ k - 1 < 2 ^ members.length := by
    have h1 : (2 : Nat) ^ k ≤ 2 ^ members.length := Nat.pow_le_pow_right (by omega) hk
    have h2 : 0 < (2 : Nat) ^ k := by positivity
    omega
  have hfeask : feasibleMask members none prot (2 ^ k - 1) := rfl
  have hscore := hmin (2 ^ k - 1) hmlt hfeask
  unfold maskScore at hscore
  rw [calculateScore_nil, calculateScore_nil] at hscore
  obtain ⟨hl1, hl2⟩ := maskAssign_lengths members prot k hk
  rw [hl1, hl2] at hscore
  rw [heq]
  omega

lemma greedyStep_balance (t : Split) (m : RoomMember) :
    Nat.dist (greedyStep [] t m).1.length (greedyStep [] t m).2.length ≤ 1 ∨
    Nat.dist (greedyStep [] t m).1.length (greedyStep [] t m).2.length + 1 =
      Nat.dist t.1.length t.2.length := by
  unfold greedyStep
  by_cases hc : calculateScore (t.1 ++ [m]) t.2 [] ≤ calculateScore t.1 (t.2 ++ [m]) []
  · rw [if_pos hc]
    rw [calculateScore_nil, calculateScore_nil] at hc
    simp only [List.length_append, List.length_cons, List.length_nil, Nat.dist] at hc ⊢
    omega
  · rw [if_neg hc]
    rw [calculateScore_nil, calculateScore_nil] at hc
    simp only [List.length_append, List.length_cons, List.length_nil, Nat.dist] at hc ⊢
    omega

/-- The greedy placement never leaves the teams more lopsided than `max 1`
of what the starting imbalance allows after the remaining placements. -/
lemma greedyFold_balance (rem : List RoomMember) :
    ∀ t : Split,
      Nat.dist ((rem.foldl (greedyStep []) t).1.length)
        ((rem.foldl (greedyStep []) t).2.length) ≤
      max 1 (Nat.dist t.1.length t.2.length - rem.length) := by
  induction rem with
  | nil =>
    intro t
    simp only [List.foldl_nil, List.length_nil, Nat.sub_zero]
    omega
  | cons m rem ih =>
    intro t
    rw [List.foldl_cons]
    refine le_trans (ih (greedyStep [] t m)) ?_
    have hkey := greedyStep_balance t m
    simp only [List.length_cons]
    omega

lemma trySwapAt_lengths {protIds : List Nat} {stl : Option String}
    {evens : List String} {tA tB : List RoomMember} {cur i j : Nat} {t' : Split}
    (h : trySwapAt protIds stl evens tA tB cur i j = some t') :
    t'.1.length = tA.length ∧ t'.2.length = tB.length := by
  unfold trySwapAt at h
  rcases hga : tA.get? i with _ | a
  · simp only [hga] at h
    exact Option.noConfusion h
  · rcases hgb : tB.get? j with _ | b
    · simp only [hga, hgb] at h
      exact Option.noConfusion h
    · simp only [hga, hgb] at h
      by_cases hp : protIds.contains b.id = true
      · rw [if_pos hp] at h
        exact Option.noConfusion h
      · rw [if_neg hp] at h
        by_cases hv : violatesSameTeam stl (tA.set i b) (tB.set j a) = true
        · rw [if_pos hv] at h
          exact Option.noConfusion h
        · rw [if_neg hv] at h
          by_cases hsc : calculateScore (tA.set i b) (tB.set j a) evens < cur
          · rw [if_pos hsc] at h
            cases h
            constructor <;> simp
          · rw [if_neg hsc] at h
            exact Option.noConfusion h

lemma findSwap_lengths {protIds : List Nat} {stl : Option String}
    {evens : List String} {tA tB : List RoomMember} {cur : Nat} {t' : Split}
    (h : findSwap protIds stl evens tA tB cur = some t') :
    t'.1.length = tA.length ∧ t'.2.length = tB.length := by
  unfold findSwap at h
  obtain ⟨i, _, hf⟩ := List.exists_of_findSome?_eq_some h
  rcases hga : tA.get? i with _ | a
  · rw [hga] at hf
    exact Option.noConfusion hf
  · rw [hga] at hf
    simp only [] at hf
    by_cases hp : protIds.contains a.id = true
    · rw [if_pos hp] at hf
      exact Option.noConfusion hf
    · rw [if_neg hp] at hf
      obtain ⟨j, _, hf2⟩ := List.exists_of_findSome?_eq_some hf
      exact trySwapAt_lengths hf2

/-- 2-opt swaps exchange one member for one member: team sizes are invariant. -/
lemma twoOptLoop_lengths (protIds : List Nat) (stl : Option String)
    (evens : List String) : ∀ (fuel : Nat) (t : Split),
    (twoOptLoop protIds stl evens fuel t).1.length = t.1.length ∧
    (twoOptLoop protIds stl evens fuel t).2.length = t.2.length := by
  intro fuel
  induction fuel with
  | zero => intro t; exact ⟨rfl, rfl⟩
  | succ fuel ih =>
    intro t
    rw [twoOptLoop]
    rcases hfs : findSwap protIds stl evens t.1 t.2
        (calculateScore t.1 t.2 evens) with _ | t'
    · simp [hfs]
    · simp only [hfs]
      obtain ⟨h1, h2⟩ := findSwap_lengths hfs
      obtain ⟨g1, g2⟩ := ih t'
      exact ⟨g1.trans h1, g2.trans h2⟩

/-- With no `same_team` label the placement loop queues every unprotected
member and touches nothing else. -/
lemma placeFold_none (targetA : Bool) (ms : List RoomMember) :
    ∀ st : GreedyInit, (∀ m ∈ ms, m.id ∉ st.protIds) →
      ms.foldl (placeStep none targetA) st =
        { st with remaining := st.remaining ++ ms } := by
  induction ms with
  | nil =>
    intro st _
    simp
  | cons m ms ih =>
    intro st hdisj
    rw [List.foldl_cons]
    have hmid : m.id ∉ st.protIds := hdisj m (List.mem_cons_self m ms)
    have hskip : ¬ (st.protIds.contains m.id = true) := by simpa using hmid
    have hst' : placeStep none targetA st m =
        { st with remaining := st.remaining ++ [m] } := by
      simp [placeStep, hskip, hmid]
    rw [hst', ih { st with remaining := st.remaining ++ [m] }
      (fun y hy => hdisj y (List.mem_cons_of_mem m hy))]
    simp

lemma greedyWithTwoOpt_balanced (members : List RoomMember) (prot : Option Split)
    (rndA : Bool)
    (hdisj : ∀ m ∈ members, m.id ∉ ((protFst prot ++ protSnd prot).map (·.id)))
    (hbal : Nat.dist (protFst prot).length (protSnd prot).length ≤
      members.length + 1) :
    Nat.dist (greedyWithTwoOpt members [] none prot rndA).1.length
      (greedyWithTwoOpt members [] none prot rndA).2.length ≤ 1 := by
  have hplace : greedyPlace members none prot rndA =
      ⟨protFst prot, protSnd prot,
        (protFst prot ++ protSnd prot).map (·.id), members⟩ := by
    unfold greedyPlace
    exact placeFold_none _ members
      ⟨protFst prot, protSnd prot, (protFst prot ++ protSnd prot).map (·.id), []⟩
      (fun m hm => hdisj m hm)
  have heq : greedyWithTwoOpt members [] none prot rndA =
      twoOptLoop ((protFst prot ++ protSnd prot).map (·.id)) none [] 100
        ((members.mergeSort
            (fun a b => decide (evenCount [] b ≤ evenCount [] a))).foldl
          (greedyStep []) (protFst prot, protSnd prot)) := by
    unfold greedyWithTwoOpt
    rw [hplace]
  rw [heq]
  obtain ⟨t1, t2⟩ := twoOptLoop_lengths
    ((protFst prot ++ protSnd prot).map (·.id)) none [] 100
    ((members.mergeSort (fun a b => decide (evenCount [] b ≤ evenCount [] a))).foldl
      (greedyStep []) (protFst prot, protSnd prot))
  rw [t1, t2]
  have hslen : (members.mergeSort
      (fun a b => decide (evenCount [] b ≤ evenCount [] a))).length =
      members.length := (List.mergeSort_perm members _).length_eq
  refine le_trans (greedyFold_balance
    (members.mergeSort (fun a b => decide (evenCount [] b ≤ evenCount [] a)))
    (protFst prot, protSnd prot)) ?_
  show max 1 (Nat.dist (protFst prot).length (protSnd prot).length -
      (members.mergeSort
        (fun a b => decide (evenCount [] b ≤ evenCount [] a))).length) ≤ 1
  omega

lemma divideCore_balanced (remaining : List RoomMember) (prot : Option Split)
    (rndA : Bool)
    (hdisj : ∀ m ∈ remaining, m.id ∉ ((protFst prot ++ protSnd prot).map (·.id)))
    (hbal : Nat.dist (protFst prot).length (protSnd prot).length ≤
      remaining.length + 1) :
    Nat.dist (divideCore remaining [] none prot rndA).1.length
      (divideCore remaining [] none prot rndA).2.length ≤ 1 := by
  unfold divideCore
  by_cases hlen : remaining.length ≤ 12
  · rw [if_pos hlen]
    exact solveWithCSP_nil_balanced remaining prot hbal
  · rw [if_neg hlen]
    exact greedyWithTwoOpt_balanced remaining prot rndA hdisj hbal

/-- The first member nicknamed 葳蕤, for the hidden pairing rule. -/
def pairW : RoomMember := ⟨1, 0, "uw", "葳蕤", "", Team.noTeam, []⟩

/-- The first member nicknamed 兔子, for the hidden pairing rule. -/
def pairT : RoomMember := ⟨2, 0, "ut", "兔子", "", Team.noTeam, []⟩

/-- C5 (counterexample).  With no rules configured, a room holding exactly the
two special members 葳蕤 and 兔子 is split (2, 0) whenever the hidden pairing
rule fires: the pair is pre-assigned to one side, nobody is left to place, and
the exact solver returns the pre-assignment unchanged.  The claim that the
resulting team sizes always differ by at most one fails on the code. -/
theorem divideWithRules_pair_unbalanced :
    (divideWithRules [pairW, pairT] [] true true true).1.length = 2 ∧
    (divideWithRules [pairW, pairT] [] true true true).2.length = 0 ∧
    ¬ (Nat.dist (divideWithRules [pairW, pairT] [] true true true).1.length
        (divideWithRules [pairW, pairT] [] true true true).2.length ≤ 1) := by
  refine ⟨rfl, rfl, ?_⟩
  decide

/-- C5 (amended).  When no label carries the `even` or `same_team` rule, the
two teams produced by `divideWithRules` differ in size by at most one — on the
exact-solver path because an all-but-balancing mask is enumerated, on the
greedy path because each placement shrinks any imbalance and 2-opt preserves
sizes — except in the single case excluded by the counterexample: exactly the
two special members with the pairing rule firing. -/
theorem divideWithRules_size_balanced (members : List RoomMember)
    (labelRules : List (String × String)) (r1 r2 r3 : Bool)
    (hids : (members.map (·.id)).Nodup)
    (hplain : ∀ p ∈ labelRules, p.2 ≠ "even" ∧ p.2 ≠ "same_team")
    (hsize : members.length ≠ 2 ∨ r1 = false ∨
      members.find? (fun m => decide (m.nickname = "葳蕤")) = none ∨
      members.find? (fun m => decide (m.nickname = "兔子")) = none) :
    Nat.dist (divideWithRules members labelRules r1 r2 r3).1.length
      (divideWithRules members labelRules r1 r2 r3).2.length ≤ 1 := by
  have hnodup : members.Nodup := List.Nodup.of_map _ hids
  have heven : evenLabelsOf labelRules = [] := by
    unfold evenLabelsOf
    have h0 : labelRules.filter (fun p => decide (p.2 = "even")) = [] :=
      List.filter_eq_nil_iff.mpr (fun p hp => by simp [(hplain p hp).1])
    rw [h0]
    rfl
  have hstl : sameTeamLabelOf labelRules = none := by
    unfold sameTeamLabelOf
    have h0 : labelRules.find? (fun p => decide (p.2 = "same_team")) = none :=
      List.find?_eq_none.mpr (fun p hp => by simp [(hplain p hp).2])
    rw [h0]
    rfl
  unfold divideWithRules
  by_cases h0 : members.length = 0
  · rw [if_pos h0]
    simp [Nat.dist]
  · rw [if_neg h0]
    by_cases h1 : members.length = 1
    · rw [if_pos h1]
      simp only [List.length_take, List.length_nil, h1, Nat.dist]
      omega
    · rw [if_neg h1]
      rw [heven, hstl]
      have hnone : Nat.dist (divideCore members [] none none r3).1.length
          (divideCore members [] none none r3).2.length ≤ 1 :=
        divideCore_balanced members none r3
          (by simp [protFst, protSnd])
          (by simp [protFst, protSnd, Nat.dist])
      rcases hw : members.find? (fun m => decide (m.nickname = "葳蕤")) with _ | w
      · simp only [hw]
        exact hnone
      · rcases ht : members.find? (fun m => decide (m.nickname = "兔子")) with _ | t
        · simp only [hw, ht]
          exact hnone
        · simp only [hw, ht]
          by_cases hps : r1 = true
          · rw [if_pos hps]
            have hlen2 : members.length ≠ 2 := by
              rcases hsize with h | h | h | h
              · exact h
              · rw [hps] at h; cases h
              · rw [hw] at h; cases h
              · rw [ht] at h; cases h
            have hpairperm := remainingAfterPair_perm members w t hw ht hnodup
            have hremlen : (remainingAfterPair members).length + 2 = members.length := by
              have := hpairperm.length_eq
              simp only [List.length_cons] at this
              omega
            have hremfilter := remainingAfterPair_eq_filter members w t hw ht hnodup
            have hdisjwt : ∀ m ∈ remainingAfterPair members,
                m.id ∉ ([w, t].map (·.id)) := by
              intro m hm hc
              rw [hremfilter] at hm
              obtain ⟨hmm, hmp⟩ := List.mem_filter.mp hm
              simp only [Bool.and_eq_true, decide_eq_true_eq] at hmp
              simp only [List.map_cons, List.map_nil, List.mem_cons,
                List.not_mem_nil, or_false] at hc
              rcases hc with h | h
              · exact hmp.1 (List.inj_on_of_nodup_map hids hmm
                  (List.mem_of_find?_eq_some hw) h)
              · exact hmp.2 (List.inj_on_of_nodup_map hids hmm
                  (List.mem_of_find?_eq_some ht) h)
            by_cases hto : r2 = true
            · rw [if_pos hto]
              apply divideCore_balanced
              · intro m hm
                simpa [protFst, protSnd] using hdisjwt m hm
              · simp only [protFst, protSnd, List.length_cons, List.length_nil,
                  Nat.dist]
                omega
            · rw [if_neg hto]
              apply divideCore_balanced
              · intro m hm
                simpa [protFst, protSnd] using hdisjwt m hm
              · simp only [protFst, protSnd, List.length_cons, List.length_nil,
                  Nat.dist]
                omega
          · rw [if_neg hps]
            exact hnone

/-! ## Concrete instances of the claim theorems -/

/-- A two-member room owned by `o`, for exercising `divideTeams`. -/
def exC3 : ServiceState :=
  { users := [⟨"o", "O", ""⟩, ⟨"p", "P", ""⟩],
    rooms := [⟨1, "123456", "g", "o", 10, RoomStatus.waiting, [], none⟩],
    members := [⟨1, 1, "o", "O", "", Team.noTeam, []⟩,
                ⟨2, 1, "p", "P", "", Team.noTeam, []⟩] }

/-- The division result `divideTeams` computes on `exC3`. -/
def exC3res : DivisionResult := ⟨[⟨"o", "O", "", []⟩], [⟨"p", "P", "", []⟩]⟩

/-- The single room row of `exC4`. -/
def exC4room : Room := ⟨1, "123456", "g", "o", 10, RoomStatus.waiting, [], none⟩

theorem solveWithCSP_returns_global_min_witness :
    [pairW].length ≤ 12 ∧
    violatesSameTeam none (protFst none) (protSnd none) = false ∧
    (∃ mstar, mstar < 2 ^ [pairW].length ∧
      feasibleMask [pairW] none none mstar ∧
      solveWithCSP [pairW] [] none none = maskAssign [pairW] none mstar ∧
      (∀ m, m < 2 ^ [pairW].length → feasibleMask [pairW] none none m →
        maskScore [pairW] [] none mstar ≤ maskScore [pairW] [] none m) ∧
      (∀ m, m < 2 ^ [pairW].length → feasibleMask [pairW] none none m →
        maskScore [pairW] [] none m = maskScore [pairW] [] none mstar →
        mstar ≤ m)) :=
  ⟨by decide, rfl,
   solveWithCSP_returns_global_min [pairW] [] none none (by decide) rfl⟩

theorem divideWithRules_respects_same_team_witness :
    ("god", "same_team") ∈ [("god", "same_team")] ∧
    ([("god", "same_team")].filter (fun p => decide (p.2 = "same_team"))).length ≤ 1 ∧
    ¬ ((∃ a ∈ (divideWithRules [] [("god", "same_team")] true true true).1,
          "god" ∈ a.labels) ∧
       (∃ b ∈ (divideWithRules [] [("god", "same_team")] true true true).2,
          "god" ∈ b.labels)) :=
  ⟨by decide, by decide,
   divideWithRules_respects_same_team [] [("god", "same_team")] "god" true true true
     (by decide) (by decide)⟩

theorem divideTeams_partitions_witness :
    (exC3.members.map (·.id)).Nodup ∧
    (∃ room', findRoomByCode (divideTeams exC3 "o" "123456" ⟨true, true, true⟩).2.1
        "123456" = some room' ∧
      room'.status = RoomStatus.divided ∧
      room'.divisionResult = some exC3res ∧
      exC3res.teamA.length + exC3res.teamB.length =
        (roomMembers (divideTeams exC3 "o" "123456" ⟨true, true, true⟩).2.1
          room'.id).length ∧
      List.Perm ((exC3res.teamA ++ exC3res.teamB).map (fun dm => dm.userId))
        ((roomMembers (divideTeams exC3 "o" "123456" ⟨true, true, true⟩).2.1
          room'.id).map (fun m => m.userId)) ∧
      ∀ m ∈ roomMembers (divideTeams exC3 "o" "123456" ⟨true, true, true⟩).2.1
          room'.id, m.team = Team.teamA ∨ m.team = Team.teamB) :=
  ⟨by decide,
   divideTeams_partitions exC3 "o" "123456" ⟨true, true, true⟩ exC3res
     (divideTeams exC3 "o" "123456" ⟨true, true, true⟩).2.1
     (divideTeams exC3 "o" "123456" ⟨true, true, true⟩).2.2
     (by decide) rfl⟩

theorem setLabels_and_rules_publish_member_joined_witness :
    findRoomByCode exC4 "123456" = some exC4room ∧
    exC4room.ownerId = "o" ∧
    ((["god"].all (fun l => memberLabelValues.contains l) = true →
      ∀ member, (roomMembers exC4 exC4room.id).find?
          (fun m => decide (m.userId = "o")) = some member →
        setMemberLabels exC4 "o" "123456" "o" ["god"] =
          (Except.ok (), setLabelsState exC4 member.id ["god"],
           [Action.updateMemberLabels member.id ["god"],
            Action.publish (memberJoinedEvent "123456"
              (formatRoomData exC4room
                (roomMembers (setLabelsState exC4 member.id ["god"])
                  exC4room.id)))])) ∧
     ((∀ p ∈ [("god", "even")], p.2 = "" ∨ p.2 ∈ labelRuleValues) →
      ([("god", "even")].filter (fun p => decide (p.2 = "same_team"))).length ≤ 1 →
      setLabelRules exC4 "o" "123456" [("god", "even")] =
        (Except.ok (),
         saveRoomRow exC4 { exC4room with labelRules := [("god", "even")] },
         [Action.saveRoom exC4room.id,
          Action.publish (memberJoinedEvent "123456"
            (formatRoomData { exC4room with labelRules := [("god", "even")] }
              (roomMembers (saveRoomRow exC4
                  { exC4room with labelRules := [("god", "even")] })
                exC4room.id)))]))) :=
  ⟨rfl, rfl,
   setLabels_and_rules_publish_member_joined exC4 "o" "123456" "o" ["god"]
     [("god", "even")] exC4room rfl rfl⟩

theorem divideWithRules_size_balanced_witness :
    ([pairW, pairT].map (·.id)).Nodup ∧
    (∀ p ∈ ([] : List (String × String)), p.2 ≠ "even" ∧ p.2 ≠ "same_team") ∧
    ([pairW, pairT].length ≠ 2 ∨ false = false ∨
      [pairW, pairT].find? (fun m => decide (m.nickname = "葳蕤")) = none ∨
      [pairW, pairT].find? (fun m => decide (m.nickname = "兔子")) = none) ∧
    Nat.dist (divideWithRules [pairW, pairT] [] false true true).1.length
      (divideWithRules [pairW, pairT] [] false true true).2.length ≤ 1 :=
  ⟨by decide, by decide, by decide,
   divideWithRules_size_balanced [pairW, pairT] [] false true true (by decide)
     (by decide) (by decide)⟩

theorem joinRoom_spec_witness :
    findRoomByCode exC4 "123456" = some exC4room ∧
    (roomMembers exC4 exC4room.id).length ≤ exC4room.maxMembers ∧
    (((joinRoom exC4 "q" "123456").1 = Except.error ServiceError.roomNotJoinable ↔
      exC4room.status ≠ RoomStatus.waiting) ∧
     (exC4room.status = RoomStatus.waiting →
      (roomMembers exC4 exC4room.id).any (fun m => decide (m.userId = "q")) = true →
      joinRoom exC4 "q" "123456" = (Except.ok exC4room, exC4, [])) ∧
     (exC4room.status = RoomStatus.waiting →
      (roomMembers exC4 exC4room.id).any (fun m => decide (m.userId = "q")) = false →
      (((joinRoom exC4 "q" "123456").1 = Except.error ServiceError.roomFull ↔
        (roomMembers exC4 exC4room.id).length = exC4room.maxMembers) ∧
      ((roomMembers exC4 exC4room.id).length ≠ exC4room.maxMembers →
        joinRoom exC4 "q" "123456" =
          (Except.ok exC4room, addMember exC4 exC4room.id "q",
           [Action.insertMember exC4room.id "q",
            Action.publish (memberJoinedEvent "123456"
              (formatRoomData exC4room
                (roomMembers (addMember exC4 exC4room.id "q") exC4room.id)))]))))) :=
  ⟨rfl, by decide,
   joinRoom_spec exC4 "q" "123456" exC4room rfl (by decide)⟩

theorem leaveRoom_owner_closes_witness :
    findRoomByCode exC4 "123456" = some exC4room ∧
    exC4room.ownerId = "o" ∧
    (exC4.rooms.map (·.roomCode)).Nodup ∧
    (leaveRoom exC4 "o" "123456" =
      (Except.ok (),
       { exC4 with
          members := exC4.members.filter (fun m => decide (m.roomId ≠ exC4room.id)),
          rooms := exC4.rooms.filter (fun r => decide (r.id ≠ exC4room.id)) },
       [Action.publish (roomClosedEvent exC4room.roomCode),
        Action.deleteMembersOfRoom exC4room.id,
        Action.deleteRoom exC4room.id]) ∧
     eventsOf (leaveRoom exC4 "o" "123456").2.2 =
       [roomClosedEvent exC4room.roomCode] ∧
     getRoomByCode (leaveRoom exC4 "o" "123456").2.1 "123456" =
       Except.error ServiceError.notFound) :=
  ⟨rfl, rfl, by decide,
   leaveRoom_owner_closes exC4 "o" "123456" exC4room rfl rfl (by decide)⟩

theorem mutations_publish_after_writes_witness :
    publishesLast (createRoom exC4 "z" "g" 4 ["654321"]).2.2 = true ∧
    publishesLast (joinRoom exC4 "z" "123456").2.2 = true ∧
    ((∀ room, findRoomByCode exC4 "123456" = some room → room.ownerId ≠ "z") →
      publishesLast (leaveRoom exC4 "z" "123456").2.2 = true) ∧
    publishesLast (removeMember exC4 "z" "123456" "m").2.2 = true ∧
    publishesLast (divideTeams exC4 "z" "123456" ⟨true, true, true⟩).2.2 = true ∧
    publishesLast (redivideTeams exC4 "z" "123456" ⟨true, true, true⟩).2.2 = true ∧
    publishesLast (setMemberLabels exC4 "z" "123456" "m" ["god"]).2.2 = true ∧
    publishesLast (setLabelRules exC4 "z" "123456" [("god", "even")]).2.2 = true ∧
    (∀ room, findRoomByCode exC4 "123456" = some room → room.ownerId = "z" →
      (closeRoom exC4 "z" "123456").2.2 =
        [Action.publish (roomClosedEvent room.roomCode),
         Action.deleteMembersOfRoom room.id, Action.deleteRoom room.id]) :=
  mutations_publish_after_writes exC4 "z" "123456" "m" "g" 4 ["654321"] ["god"]
    [("god", "even")] ⟨true, true, true⟩

theorem getMyJoinedRoom_first_membership_witness :
    (∀ r, getMyJoinedRoom exC9 "u" = some r →
      r ∈ exC9.rooms ∧ r.status ≠ RoomStatus.closed ∧ r.ownerId ≠ "u" ∧
      ∃ m ∈ exC9.members, m.userId = "u" ∧ m.roomId = r.id) ∧
    (∀ m, exC9.members.find? (fun m => decide (m.userId = "u")) = some m →
      ∀ r, exC9.rooms.find? (fun r => decide (r.id = m.roomId)) = some r →
      (r.status = RoomStatus.closed ∨ r.ownerId = "u") →
      getMyJoinedRoom exC9 "u" = none) :=
  getMyJoinedRoom_first_membership exC9 "u"

theorem redivideTeams_no_wrongStatus_witness :
    match (redivideTeams exC9 "u" "111111" ⟨true, true, true⟩).1 with
    | Except.error e => e = ServiceError.notFound ∨ e = ServiceError.notOwner ∨
        e = ServiceError.tooFewMembers
    | Except.ok _ => True :=
  redivideTeams_no_wrongStatus exC9 "u" "111111" ⟨true, true, true⟩

end Divide
